import Mathlib

/-!
Verification development for the elizaos secrets-manager plugin.

The development shallowly embeds the two core components:

* `EnhancedSecretManager` (context-scoped secret store: get/set/list/
  grantAccess/revokeAccess, permission evaluation, AES-256-GCM
  encryption of stored values, bounded in-memory audit log), and
* `SecretFormService` (ephemeral secret-collection form sessions:
  submission validation, sequential persistence of submitted secrets,
  session status transitions).

Conventions of the embedding:

* JavaScript values that may be a plain string, an encrypted payload
  object, or a config-shaped object are represented by the inductive
  `Value`; JS truthiness of strings ("" is falsy) and of objects
  (always truthy) is modelled by `vtruthy` and friends.
* Optional fields (`a?: T` in TypeScript) are `Option`s, and `a || d`
  resp. `a ?? d` are `orTruthy` resp. `Option.getD`.
* The asynchronous methods are deterministic state transformers
  `SMState → α × SMState`; a JS `throw` inside a `try` block is an
  `Except.error` that the enclosing catch handler turns into the
  logged failure result, exactly as in the source.
* AES-256-GCM comes from the external node `crypto` collaborator; it is
  modelled by its authenticated-encryption contract: encryption
  produces ciphertext, a fresh IV and an authentication tag bound to
  (key, iv, ciphertext); decryption succeeds and inverts encryption
  exactly when the tag verifies, and fails (throws) otherwise.
-/

namespace SecretsManager

/-- First-match association-list lookup (JS object property read). -/
def alookup {α : Type} (l : List (String × α)) (k : String) : Option α :=
  match l with
  | [] => none
  | (k', v) :: t => if k' = k then some v else alookup t k

/-- Association-list write (JS object property assignment): replaces the
first binding of the key, else appends. -/
def ainsert {α : Type} (l : List (String × α)) (k : String) (v : α) :
    List (String × α) :=
  match l with
  | [] => [(k, v)]
  | (k', v') :: t => if k' = k then (k, v) :: t else (k', v') :: ainsert t k v

/-- JS truthiness of an optional string (`undefined` and `""` are falsy). -/
def truthyO (o : Option String) : Bool := o.getD "" ≠ ""

/-- `o || ''` — the string carried by an optional string, or `""`. -/
def tval (o : Option String) : String := o.getD ""

/-- JS `o || d` on an optional string with a string default. -/
def orTruthy (o : Option String) (d : String) : String :=
  if truthyO o then o.getD "" else d

/-- Secret scope, `'global' | 'world' | 'user'` (types.ts `SecretContext.level`). -/
inductive Level where
  | global
  | world
  | user
deriving DecidableEq, Repr

/-- The string form of a level (used for the `plugin` default in `set`). -/
def Level.toStr : Level → String
  | .global => "global"
  | .world => "world"
  | .user => "user"

/-- Action kinds of the permission system (types.ts `SecretAccessLog.action`). -/
inductive SAction where
  | read
  | write
  | delete
  | share
deriving DecidableEq, Repr

/-- World roles of the host runtime's role-lookup collaborator. -/
inductive Role where
  | NONE
  | MEMBER
  | ADMIN
  | OWNER
deriving DecidableEq, Repr

/-- types.ts `EncryptedSecret`. -/
structure EncryptedSecret where
  value : String
  iv : String
  authTag : String
  algorithm : String
  keyId : String
deriving DecidableEq, Repr

/-- types.ts `SecretPermission`. -/
structure SecretPermission where
  entityId : String
  permissions : List String
  grantedBy : String
  grantedAt : Nat
  expiresAt : Option Nat := none
deriving DecidableEq, Repr

/-- The non-recursive fields of types.ts `SecretConfig` (those besides
`value` and `encrypted`). Every field is optional, as a JS object may
lack any of them (e.g. the `\x7b...spread, value: undefined\x7d` objects built
by `list`). -/
structure CfgMeta where
  type : Option String := none
  required : Option Bool := none
  description : Option String := none
  canGenerate : Option Bool := none
  validationMethod : Option String := none
  status : Option String := none
  lastError : Option String := none
  attempts : Option Nat := none
  createdAt : Option Nat := none
  validatedAt : Option Nat := none
  plugin : Option String := none
  level : Option Level := none
  ownerId : Option String := none
  worldId : Option String := none
  permissions : Option (List SecretPermission) := none
  sharedWith : Option (List String) := none
deriving Repr

/-- A JavaScript runtime value in a secret `value` position: a plain
string, an `EncryptedSecret` payload object, or a whole config-shaped
object (`getWorldSecret` can return the stored record itself through
`secretData.value || secretData`). -/
inductive Value where
  | str (s : String)
  | enc (e : EncryptedSecret)
  | cfgObj (value : Option Value) (encrypted : Option Bool) (meta : CfgMeta)

/-- types.ts `SecretConfig`: the `value`/`encrypted` fields plus the rest. -/
structure SecretConfig where
  value : Option Value := none
  encrypted : Option Bool := none
  meta : CfgMeta := {}

/-- The config-shaped record as a JS object value. -/
def SecretConfig.toValue (c : SecretConfig) : Value :=
  .cfgObj c.value c.encrypted c.meta

/-- `Partial<SecretConfig>` as consumed by `EnhancedSecretManager.set`
(the fields the method actually reads). -/
structure PartialSecretConfig where
  type : Option String := none
  required : Option Bool := none
  description : Option String := none
  plugin : Option String := none
  encrypted : Option Bool := none
  permissions : Option (List SecretPermission) := none
  validationMethod : Option String := none

/-- types.ts `SecretContext`. -/
structure SecretContext where
  level : Level
  worldId : Option String := none
  userId : Option String := none
  agentId : String
  requesterId : Option String := none
deriving DecidableEq, Repr

/-- types.ts `SecretAccessLog`. -/
structure SecretAccessLog where
  secretKey : String
  accessedBy : String
  action : SAction
  timestamp : Nat
  context : SecretContext
  success : Bool
  error : Option String := none
deriving DecidableEq, Repr

/-- An entry of a world's `metadata.secrets` map: either a legacy bare
string or a stored `\x7b...config, value\x7d` record. -/
inductive WorldSecretEntry where
  | legacy (s : String)
  | stored (c : SecretConfig)

/-- JS truthiness of a `metadata.secrets` entry (`""` is falsy, objects
are truthy). -/
def WorldSecretEntry.wsTruthy : WorldSecretEntry → Bool
  | .legacy s => s ≠ ""
  | .stored _ => true

/-- A world record of the host runtime (`runtime.getWorld`), with the
portions of its metadata the secret manager reads: the `secrets` map and
the `roles` map. `none` models absent `metadata`/`metadata.secrets`/
`metadata.roles`. -/
structure World where
  id : String
  secrets : Option (List (String × WorldSecretEntry)) := none
  roles : Option (List (String × Role)) := none

/-- The `data` payload of a user-secret component
(`\x7bkey, value, metadata, updatedAt\x7d` as written by `setUserSecret`;
`encryptedLegacy` models the old-structure `data.encrypted` flag that
`getUserSecret` still consults). -/
structure ComponentData where
  key : String
  value : Option Value := none
  metadata : Option SecretConfig := none
  encryptedLegacy : Option Bool := none
  updatedAt : Nat := 0

/-- A runtime component (`runtime.getComponents` element); only the
fields the secret manager reads. -/
structure Component where
  id : String
  entityId : String
  type : String
  data : ComponentData

/-- JS truthiness of a `Value`. -/
def vtruthy : Value → Bool
  | .str s => s ≠ ""
  | .enc _ => true
  | .cfgObj _ _ _ => true

/-- JS truthiness of an optional `Value`. -/
def vtruthyO : Option Value → Bool
  | some v => vtruthy v
  | none => false

/-- JS `v || null`. -/
def valOrNull (o : Option Value) : Option Value :=
  if vtruthyO o then o else none

/-- The full state of an `EnhancedSecretManager` instance together with
the host-runtime collaborators it reads and writes.

`envVars` is the backing store of the parent `EnvManagerService`.
Modelled from the spec: the baseline environment-variable loader for
legacy agent-wide settings is out of scope and specified only at its
interface; `getEnvVar key` reads the value stored under `key` and
`updateEnvVar` overwrites it (the plugin bucket does not affect lookup
by variable name).

`validator` is the injected `validateEnvVar` collaborator. Modelled from
the spec: type-specific format validation is out of scope, "treated as
an injected validator"; it judges (key, value, type, validationMethod).

`now` is the logical clock for `Date.now()`, and `ivCtr` makes each
generated initialization vector fresh. -/
structure SMState where
  agentId : String
  encryptionKey : String
  now : Nat := 0
  ivCtr : Nat := 0
  validator : String → Value → String → Option String → Bool := fun _ _ _ _ => true
  envVars : List (String × Value) := []
  worlds : List (String × World) := []
  components : List Component := []
  secretCache : List (String × List (String × SecretConfig)) := []
  accessLogs : List SecretAccessLog := []

/-- The keyed MAC of the authenticated-encryption contract: the tag that
AES-256-GCM with `key` and `iv` attaches to ciphertext `ct`. -/
def macTag (key iv ct : String) : String :=
  "mac|" ++ key ++ "|" ++ iv ++ "|" ++ ct

/-- The raw cipher of the contract model (a reversible transformation of
the plaintext; confidentiality is not the verified property). -/
def cipherEnc (s : String) : String := String.mk s.data.reverse

/-- Inverse of `cipherEnc`. -/
def cipherDec (s : String) : String := String.mk s.data.reverse

namespace EnhancedSecretManager

/-- `encrypt` (enhanced-service.ts): fresh IV, AES-256-GCM ciphertext,
auth tag, constant algorithm and key id. -/
def encrypt (st : SMState) (value : String) : EncryptedSecret × SMState :=
  let iv := toString st.ivCtr
  let ct := cipherEnc value
  ({ value := ct, iv := iv, authTag := macTag st.encryptionKey iv ct,
     algorithm := "aes-256-gcm", keyId := "default" },
   { st with ivCtr := st.ivCtr + 1 })

/-- `decrypt` (enhanced-service.ts): a bare string is returned unchanged
(backward compatibility); an `EncryptedSecret` decrypts iff its auth tag
verifies, else the GCM `final()` call throws; any other object makes the
node cipher API throw a TypeError. -/
def decrypt (st : SMState) (encryptedData : Value) : Except String String :=
  match encryptedData with
  | .str s => .ok s
  | .enc e =>
    if e.authTag ≠ "" then
      if e.authTag = macTag st.encryptionKey e.iv e.value then
        .ok (cipherDec e.value)
      else .error "Unsupported state or unable to authenticate data"
    else .error "Unsupported state or unable to authenticate data"
  | .cfgObj _ _ _ => .error "TypeError"

/-- The `SecretAccessLog` entry built by `logAccess`. -/
def logEntry (st : SMState) (key : String) (action : SAction)
    (context : SecretContext) (success : Bool) (error : Option String) :
    SecretAccessLog :=
  { secretKey := key,
    accessedBy :=
      if truthyO context.requesterId then tval context.requesterId
      else if truthyO context.userId then tval context.userId
      else st.agentId,
    action := action, timestamp := st.now, context := context,
    success := success, error := error }

/-- `logAccess`: push the entry, then keep only the last 1000 entries. -/
def logAccess (st : SMState) (key : String) (action : SAction)
    (context : SecretContext) (success : Bool) (error : Option String) :
    SMState :=
  let l := st.accessLogs ++ [logEntry st key action context success error]
  { st with accessLogs := if l.length > 1000 then l.drop (l.length - 1000) else l }

/-- The role the world's `metadata.roles` map assigns to the requester
(`world.metadata?.roles?.[context.requesterId || ''] || Role.NONE`). -/
def roleOf (w : World) (ctx : SecretContext) : Role :=
  (alookup (w.roles.getD []) (tval ctx.requesterId)).getD Role.NONE

/-- `checkPermission` (enhanced-service.ts). -/
def checkPermission (st : SMState) (_key : String) (action : SAction)
    (ctx : SecretContext) : Bool :=
  match ctx.level with
  | .global =>
    if action = SAction.read then true
    else decide (ctx.requesterId = some st.agentId)
  | .world =>
    if truthyO ctx.worldId then
      match alookup st.worlds (tval ctx.worldId) with
      | none => false
      | some w =>
        if action = SAction.read then true
        else decide (roleOf w ctx = Role.OWNER) || decide (roleOf w ctx = Role.ADMIN)
    else false
  | .user =>
    if truthyO ctx.userId then decide (ctx.requesterId = ctx.userId)
    else false

/-- `getGlobalSecret`: env-var value first (backward compatibility),
then the `global` cache entry's `value || null`. -/
def getGlobalSecret (st : SMState) (key : String) : Option Value :=
  let envValue := alookup st.envVars key
  if vtruthyO envValue then envValue
  else
    valOrNull (((alookup st.secretCache "global").bind
      (fun m => alookup m key)).bind (fun c => c.value))

/-- `getWorldSecret`: cache first (decrypting if the record is flagged
encrypted and has a truthy value), else the world's `metadata.secrets`
entry; a thrown decryption error propagates to the caller. -/
def getWorldSecret (st : SMState) (key worldId : String) :
    Except String (Option Value) :=
  match (alookup st.secretCache ("world:" ++ worldId)).bind
      (fun m => alookup m key) with
  | some config =>
    if config.encrypted.getD false && vtruthyO config.value then
      match config.value with
      | some v => (fun s => some (Value.str s)) <$> decrypt st v
      | none => .error "TypeError"
    else .ok (valOrNull config.value)
  | none =>
    match alookup st.worlds worldId with
    | some w =>
      match alookup (w.secrets.getD []) key with
      | some secretData =>
        if secretData.wsTruthy then
          match secretData with
          | .stored c =>
            if c.encrypted.getD false then
              match c.value with
              | some v => (fun s => some (Value.str s)) <$> decrypt st v
              | none => .error "TypeError"
            else
              .ok (match valOrNull c.value with
                   | some v => some v
                   | none => some c.toValue)
          | .legacy s => .ok (some (.str s))
        else .ok none
      | none => .ok none
    | none => .ok none

/-- The predicate selecting a user-secret component for `key`. -/
def isSecretComponent (key : String) (c : Component) : Bool :=
  c.data.key == key && c.type == "secret"

/-- `getUserSecret`: find the user's `secret` component for the key;
decrypt when the new-structure metadata flags it encrypted and the value
is an object carrying an `algorithm`, or when the old-structure
`data.encrypted` flag is set; else `value || null`. -/
def getUserSecret (st : SMState) (key userId : String) :
    Except String (Option Value) :=
  let components := st.components.filter (fun c => c.entityId = userId)
  match components.find? (isSecretComponent key) with
  | none => .ok none
  | some c =>
    let d := c.data
    if ((d.metadata.map (fun m => m.encrypted.getD false)).getD false
        && vtruthyO d.value
        && (match d.value with
            | some (.enc e) => e.algorithm ≠ ""
            | _ => false)) then
      (fun s => some (Value.str s)) <$> decrypt st (d.value.getD (.str ""))
    else if d.encryptedLegacy.getD false && vtruthyO d.value then
      (fun s => some (Value.str s)) <$> decrypt st (d.value.getD (.str ""))
    else .ok (valOrNull d.value)

/-- `get` (enhanced-service.ts): log the attempt, check read permission
(deny ⇒ log a failure and return null), then resolve by level; any
thrown error is caught, logged and turned into a null result. -/
def get (st : SMState) (key : String) (ctx : SecretContext) :
    Option Value × SMState :=
  let st1 := logAccess st key .read ctx true none
  if checkPermission st1 key .read ctx then
    let inner : Except String (Option Value) :=
      match ctx.level with
      | .global => .ok (getGlobalSecret st1 key)
      | .world =>
        if truthyO ctx.worldId then getWorldSecret st1 key (tval ctx.worldId)
        else .error "World ID required for world-level secrets"
      | .user =>
        if truthyO ctx.userId then getUserSecret st1 key (tval ctx.userId)
        else .error "User ID required for user-level secrets"
    match inner with
    | .ok v => (v, st1)
    | .error e => (none, logAccess st1 key .read ctx false (some e))
  else (none, logAccess st1 key .read ctx false (some "Permission denied"))

/-- `setGlobalSecret`: store through the parent env-var service under
the `ENV_`-stripped key and in the `global` cache under the given key. -/
def setGlobalSecret (st : SMState) (key : String) (value : Value)
    (config : SecretConfig) : Bool × SMState :=
  let envKey := if key.data.take 4 = "ENV_".data
    then String.mk (key.data.drop 4) else key
  let st1 := { st with envVars := ainsert st.envVars envKey value }
  let globalSecrets := (alookup st1.secretCache "global").getD []
  ( true,
    { st1 with secretCache :=
        ainsert st1.secretCache "global" (ainsert globalSecrets key config) } )

/-- `setWorldSecret`: throws when the world is unknown; encrypts when the
config says so; writes the `\x7b...config, value\x7d` record both into the
world's `metadata.secrets` (persisted via `updateWorld`) and into the
world cache. -/
def setWorldSecret (st : SMState) (key : String) (value : Value)
    (worldId : String) (config : SecretConfig) :
    Except String (Bool × SMState) :=
  match alookup st.worlds worldId with
  | none => .error ("World " ++ worldId ++ " not found")
  | some w =>
    match (if config.encrypted.getD false then
             match value with
             | .str s =>
               let p := encrypt st s
               Except.ok (Value.enc p.1, p.2)
             | _ => Except.error "TypeError"
           else Except.ok (value, st)) with
    | .error e => .error e
    | .ok (finalValue, st1) =>
      let storedCfg := { config with value := some finalValue }
      let secrets' := ainsert (w.secrets.getD []) key (.stored storedCfg)
      let w' := { w with secrets := some secrets' }
      let st2 := { st1 with worlds := ainsert st1.worlds w'.id w' }
      let worldSecrets := (alookup st2.secretCache ("world:" ++ worldId)).getD []
      let cache' := ainsert st2.secretCache ("world:" ++ worldId)
        (ainsert worldSecrets key storedCfg)
      .ok (true, { st2 with secretCache := cache' })

/-- `setUserSecret`: find an existing `secret` component for the key;
encrypt when configured; update the found component's data in place or
create a new component (deterministic unique id from userId and key). -/
def setUserSecret (st : SMState) (key : String) (value : Value)
    (userId : String) (config : SecretConfig) :
    Except String (Bool × SMState) :=
  let existingComponents := st.components.filter (fun c => c.entityId = userId)
  let existingComponent := existingComponents.find? (isSecretComponent key)
  match (if config.encrypted.getD false then
           match value with
           | .str s =>
             let p := encrypt st s
             Except.ok (Value.enc p.1, p.2)
           | _ => Except.error "TypeError"
         else Except.ok (value, st)) with
  | .error e => .error e
  | .ok (finalValue, st1) =>
    let componentData : ComponentData :=
      { key := key, value := some finalValue, metadata := some config,
        encryptedLegacy := none, updatedAt := st1.now }
    match existingComponent with
    | some c =>
      let components' := st1.components.map
        (fun x => if x.id = c.id then { x with data := componentData } else x)
      .ok (true, { st1 with components := components' })
    | none =>
      let newComponent : Component :=
        { id := "uuid:" ++ userId ++ "-" ++ key, entityId := userId,
          type := "secret", data := componentData }
      .ok (true, { st1 with components := st1.components ++ [newComponent] })

/-- The full `SecretConfig` that `set` builds from the caller's partial
config, the context and the defaults. -/
def fullConfig (st : SMState) (key : String) (value : Value)
    (ctx : SecretContext) (config : Option PartialSecretConfig) :
    SecretConfig :=
  { value := some value,
    encrypted := some ((config.bind (fun c => c.encrypted)).getD true),
    meta := {
      type := some (orTruthy (config.bind (fun c => c.type)) "secret"),
      required := some ((config.bind (fun c => c.required)).getD false),
      description := some (orTruthy (config.bind (fun c => c.description))
        ("Secret: " ++ key)),
      canGenerate := some false,
      status := some "valid",
      attempts := some 0,
      plugin := some (orTruthy (config.bind (fun c => c.plugin)) ctx.level.toStr),
      level := some ctx.level,
      ownerId := ctx.userId,
      worldId := ctx.worldId,
      permissions := config.bind (fun c => c.permissions),
      sharedWith := none,
      validationMethod := none,
      createdAt := some st.now,
      validatedAt := some st.now } }

/-- `set` (enhanced-service.ts): log the attempt, check write permission
(deny ⇒ log a failure and return false), optionally run the injected
validator (failure throws), build the full config and dispatch by level;
any thrown error is caught, logged and turned into a false result. -/
def set (st : SMState) (key : String) (value : Value) (ctx : SecretContext)
    (config : Option PartialSecretConfig) : Bool × SMState :=
  let st1 := logAccess st key .write ctx true none
  if checkPermission st1 key .write ctx then
    let cfgType := config.bind (fun c => c.type)
    let cfgVM := config.bind (fun c => c.validationMethod)
    if (truthyO cfgVM || truthyO cfgType)
        && !(st1.validator key value (orTruthy cfgType "secret") cfgVM) then
      (false, logAccess st1 key .write ctx false (some "Validation failed"))
    else
      let fc := fullConfig st1 key value ctx config
      match ctx.level with
      | .global => setGlobalSecret st1 key value fc
      | .world =>
        if truthyO ctx.worldId then
          match setWorldSecret st1 key value (tval ctx.worldId) fc with
          | .ok r => r
          | .error e => (false, logAccess st1 key .write ctx false (some e))
        else
          (false, logAccess st1 key .write ctx false
            (some "World ID required for world-level secrets"))
      | .user =>
        if truthyO ctx.userId then
          match setUserSecret st1 key value (tval ctx.userId) fc with
          | .ok r => r
          | .error e => (false, logAccess st1 key .write ctx false (some e))
        else
          (false, logAccess st1 key .write ctx false
            (some "User ID required for user-level secrets"))
  else (false, logAccess st1 key .write ctx false (some "Permission denied"))

/-- `list` (enhanced-service.ts): metadata with the `value` field
stripped, per level; world/user levels throw on a missing id. -/
def list (st : SMState) (ctx : SecretContext) :
    Except String (List (String × SecretConfig)) :=
  match ctx.level with
  | .global =>
    .ok (((alookup st.secretCache "global").getD []).map
      (fun p => (p.1, { p.2 with value := none })))
  | .world =>
    if truthyO ctx.worldId then
      .ok (((alookup st.secretCache ("world:" ++ tval ctx.worldId)).getD []).map
        (fun p => (p.1, { p.2 with value := none })))
    else .error "World ID required"
  | .user =>
    if truthyO ctx.userId then
      let components := st.components.filter
        (fun c => c.entityId = tval ctx.userId)
      .ok (components.foldl
        (fun acc c =>
          if c.type = "secret" then
            ainsert acc c.data.key { (c.data.metadata.getD {}) with value := none }
          else acc) [])
    else .error "User ID required"

/-- `getSecretConfig`: the `list` entry for the key, `|| null`. -/
def getSecretConfig (st : SMState) (key : String) (ctx : SecretContext) :
    Except String (Option SecretConfig) :=
  (fun m => alookup m key) <$> list st ctx

/-- The partial-config view of a full config object passed back into
`set` (the fields `set` reads off its `config?` argument). -/
def SecretConfigToPartial (c : SecretConfig) : PartialSecretConfig :=
  { type := c.meta.type, required := c.meta.required,
    description := c.meta.description, plugin := c.meta.plugin,
    encrypted := c.encrypted, permissions := c.meta.permissions,
    validationMethod := c.meta.validationMethod }

/-- `updateSecretConfig`: re-read the current value via `get` (null ⇒
false), then `set` it again under the updated config. -/
def updateSecretConfig (st : SMState) (key : String) (ctx : SecretContext)
    (config : SecretConfig) : Bool × SMState :=
  let r := get st key ctx
  match r.1 with
  | none => (false, r.2)
  | some currentValue =>
    set r.2 key currentValue ctx (some (SecretConfigToPartial config))

/-- `grantAccess` (enhanced-service.ts): share permission required
(deny ⇒ false with no log entry); absent config ⇒ false; else append the
permission, extend `sharedWith` and re-persist via `updateSecretConfig`.
A throw out of `getSecretConfig` propagates (the method has no catch). -/
def grantAccess (st : SMState) (key : String) (ctx : SecretContext)
    (grantee : String) (permissions : List String) :
    Except String (Bool × SMState) :=
  if checkPermission st key .share ctx then
    match getSecretConfig st key ctx with
    | .error e => .error e
    | .ok none => .ok (false, st)
    | .ok (some config) =>
      let newPermission : SecretPermission :=
        { entityId := grantee, permissions := permissions,
          grantedBy :=
            if truthyO ctx.requesterId then tval ctx.requesterId
            else if truthyO ctx.userId then tval ctx.userId
            else st.agentId,
          grantedAt := st.now, expiresAt := none }
      let perms' := (config.meta.permissions.getD []) ++ [newPermission]
      let shared := config.meta.sharedWith.getD []
      let shared' := if shared.contains grantee then shared
                     else shared ++ [grantee]
      let config' := { config with meta :=
        { config.meta with permissions := some perms', sharedWith := some shared' } }
      .ok (updateSecretConfig st key ctx config')
  else .ok (false, st)

/-- `revokeAccess` (enhanced-service.ts): share permission required
(deny ⇒ false with no log entry); absent config ⇒ false; else filter the
grantee out of `permissions`/`sharedWith` and re-persist. -/
def revokeAccess (st : SMState) (key : String) (ctx : SecretContext)
    (grantee : String) : Except String (Bool × SMState) :=
  if checkPermission st key .share ctx then
    match getSecretConfig st key ctx with
    | .error e => .error e
    | .ok none => .ok (false, st)
    | .ok (some config) =>
      let config' := { config with meta := { config.meta with
        permissions := some ((config.meta.permissions.getD []).filter
          (fun p => p.entityId ≠ grantee)),
        sharedWith := some ((config.meta.sharedWith.getD []).filter
          (fun i => i ≠ grantee)) } }
      .ok (updateSecretConfig st key ctx config')
  else .ok (false, st)

/-- `getAccessLogs` (enhanced-service.ts): entries for the key, further
filtered by level/world/user when a context is supplied. -/
def getAccessLogs (st : SMState) (key : String)
    (context : Option SecretContext) : List SecretAccessLog :=
  st.accessLogs.filter (fun log =>
    if log.secretKey ≠ key then false
    else match context with
    | some c =>
      decide (log.context.level = c.level)
      && (!truthyO c.worldId || decide (log.context.worldId = c.worldId))
      && (!truthyO c.userId || decide (log.context.userId = c.userId))
    | none => true)

end EnhancedSecretManager

/-! ## Form sessions (secret-form-service.ts)

The declaration file `types/form.ts` is not part of the sources; the
shapes below are modelled from the spec's data model (§3 `FormSchema`,
`FormSession`, `FormSubmission`, `FormField` and its validation rules)
restricted to the fields the service code reads. The HTTP/tunnel
transport is external; the three route handlers are embedded as pure
functions of the session object they close over, the request body, and
an abstract secret-store state `σ` acted on by the injected
`SecretStore.set` collaborator (`setFn`). -/

/-- A field validation rule. Modelled from the spec: `FormField`
carries "optional validation rules"; the kinds and their evaluation are
those dispatched in `validateSubmission` (required / minLength /
maxLength / pattern / custom). -/
inductive VRule where
  | required (message : String)
  | minLength (n : Nat) (message : String)
  | maxLength (n : Nat) (message : String)
  | pattern (test : String → Bool) (message : String)
  | custom (validator : Option (String → Bool)) (message : String)

/-- The message attached to a rule. -/
def VRule.message : VRule → String
  | .required m => m
  | .minLength _ m => m
  | .maxLength _ m => m
  | .pattern _ m => m
  | .custom _ m => m

/-- Whether a rule accepts a (truthy) value — the `switch` of
`validateSubmission`. -/
def VRule.holds (value : String) : VRule → Bool
  | .required _ => value ≠ ""
  | .minLength n _ => n ≤ value.length
  | .maxLength n _ => value.length ≤ n
  | .pattern test _ => test value
  | .custom validator _ =>
    match validator with
    | some f => f value
    | none => true

/-- A form field (the parts `validateSubmission` reads). -/
structure FormField where
  name : String
  label : String
  required : Bool
  validation : Option (List VRule) := none

/-- A form schema (the parts the route handlers read). -/
structure FormSchema where
  id : String
  fields : List FormField
  expiresAt : Nat := 0
  maxSubmissions : Option Nat := none
  successMessage : String := ""

/-- One secret descriptor of the originating request
(`request.secrets` element). -/
structure SecretReq where
  key : String
  config : PartialSecretConfig := {}

/-- A recorded submission (transport metadata omitted). -/
structure FormSubmission where
  formId : String
  sessionId : String
  data : List (String × String)
  submittedAt : Nat

/-- Session status: `'active' | 'completed' | 'expired'`. -/
inductive SessionStatus where
  | active
  | completed
  | expired
deriving DecidableEq, Repr

/-- A form session (the parts the route handlers read and write). -/
structure FormSession where
  id : String
  formId : String
  schema : FormSchema
  secrets : List SecretReq
  expiresAt : Nat := 0
  submissions : List FormSubmission := []
  status : SessionStatus := .active
  callback : Option (FormSubmission → Except String Unit) := none

/-- A route handler's HTTP outcome. -/
inductive FormResponse where
  | gone (message : String)
  | badRequest (errors : List (String × String))
  | ok (message : String)
  | serverError (message : String)
  | page (sessionId : String)

/-- The `/status` payload. -/
structure StatusResp where
  status : SessionStatus
  submissionsCount : Nat
  maxSubmissions : Option Nat
  expiresAt : Nat
deriving DecidableEq, Repr

namespace SecretFormService

/-- One field's check in `validateSubmission`: a missing required field
errors immediately; a truthy value is run through the declared rules and
the first failing rule's message is recorded. -/
def validateField (data : List (String × String)) (f : FormField) :
    Option String :=
  let value := (alookup data f.name).getD ""
  if f.required && value = "" then some (f.label ++ " is required")
  else if value ≠ "" then
    match f.validation with
    | some rules =>
      match rules.find? (fun r => !r.holds value) with
      | some r => some r.message
      | none => none
    | none => none
  else none

/-- `validateSubmission`: the field-name → message error map accumulated
over the schema's fields in declaration order (empty means valid). -/
def validateSubmission (schema : FormSchema) (data : List (String × String)) :
    List (String × String) :=
  schema.fields.foldl
    (fun errors f =>
      match validateField data f with
      | some m => ainsert errors f.name m
      | none => errors) []

/-- The result of `storeSubmittedSecrets`: outcome, final store state,
and the trace of `SecretStore.set` calls actually made (descriptor and
submitted value, in call order). -/
structure StoreOut (σ : Type) where
  res : Except String Unit
  store : σ
  calls : List (SecretReq × String)

/-- `storeSubmittedSecrets`: walk the declared secrets in order, skip
falsy submitted values, call `setFn` for the rest; a thrown error stops
the walk and propagates, leaving earlier calls' effects in place. -/
def storeSubmittedSecrets {σ : Type}
    (setFn : SecretReq → String → σ → Except String Unit × σ)
    (secrets : List SecretReq) (data : List (String × String)) (s : σ) :
    StoreOut σ :=
  match secrets with
  | [] => ⟨.ok (), s, []⟩
  | r :: rest =>
    let value := (alookup data r.key).getD ""
    if value = "" then storeSubmittedSecrets setFn rest data s
    else
      match setFn r value s with
      | (.ok _, s') =>
        let out := storeSubmittedSecrets setFn rest data s'
        ⟨out.res, out.store, (r, value) :: out.calls⟩
      | (.error e, s') => ⟨.error e, s', [(r, value)]⟩

/-- `session.schema.maxSubmissions || 1`. -/
def maxSubT (schema : FormSchema) : Nat :=
  if schema.maxSubmissions.getD 0 = 0 then 1 else schema.maxSubmissions.getD 0

/-- The outcome of the submit route handler. -/
structure SubmitResult (σ : Type) where
  resp : FormResponse
  session : FormSession
  store : σ
  calls : List (SecretReq × String)
  closeRequested : Bool

/-- The POST `/api/form/:id/submit` handler: reject non-active sessions;
validate; append the submission record; persist the secrets (a thrown
error is caught as a 500 after the record was appended); on reaching
`maxSubmissions`, flip the status to `completed` and request session
closing; finally invoke the stored callback (whose throw is also caught
as a 500). -/
def handleSubmit {σ : Type} (now : Nat)
    (setFn : SecretReq → String → σ → Except String Unit × σ)
    (session : FormSession) (body : List (String × String)) (s : σ) :
    SubmitResult σ :=
  if session.status ≠ SessionStatus.active then
    ⟨.gone "Form expired or completed", session, s, [], false⟩
  else
    let errors := validateSubmission session.schema body
    if errors ≠ [] then ⟨.badRequest errors, session, s, [], false⟩
    else
      let submission : FormSubmission :=
        { formId := session.formId, sessionId := session.id,
          data := body, submittedAt := now }
      let session1 := { session with submissions := session.submissions ++ [submission] }
      let out := storeSubmittedSecrets setFn session.secrets body s
      match out.res with
      | .error _ =>
        ⟨.serverError "Failed to process submission", session1, out.store,
          out.calls, false⟩
      | .ok _ =>
        let completedNow := maxSubT session1.schema ≤ session1.submissions.length
        let session2 := if completedNow
          then { session1 with status := SessionStatus.completed } else session1
        match session2.callback with
        | some cb =>
          match cb submission with
          | .ok _ =>
            ⟨.ok session2.schema.successMessage, session2, out.store,
              out.calls, completedNow⟩
          | .error _ =>
            ⟨.serverError "Failed to process submission", session2, out.store,
              out.calls, completedNow⟩
        | none =>
          ⟨.ok session2.schema.successMessage, session2, out.store,
            out.calls, completedNow⟩

/-- The GET `/form/:id` page handler: 410 for non-active sessions, else
the rendered page. -/
def handleFormPage (session : FormSession) : FormResponse :=
  if session.status ≠ SessionStatus.active then
    .gone "This form has expired or been completed."
  else .page session.id

/-- The GET `/api/form/:id/status` handler. -/
def handleStatus (session : FormSession) : StatusResp :=
  { status := session.status,
    submissionsCount := session.submissions.length,
    maxSubmissions := session.schema.maxSubmissions,
    expiresAt := session.expiresAt }

end SecretFormService

/-! ## Concrete fixtures used by witnesses and counterexamples -/

/-- A world with an empty roles map. -/
def wEmptyRoles : World := { id := "w1", roles := some [] }

/-- A world in which `boss` is OWNER. -/
def wBossOwner : World := { id := "w1", roles := some [("boss", Role.OWNER)] }

/-- A minimal manager state with no stored data. -/
def stFix : SMState := { agentId := "agent", encryptionKey := "KEY" }

/-- A manager state holding the roleless world `w1`. -/
def stWorldFix : SMState :=
  { agentId := "agent", encryptionKey := "KEY",
    worlds := [("w1", wEmptyRoles)] }

/-- A manager state holding the world `w1` owned by `boss`. -/
def stBossFix : SMState :=
  { agentId := "agent", encryptionKey := "KEY",
    worlds := [("w1", wBossOwner)] }

/-- World-scope context of requester `bob` (no role in `w1`). -/
def ctxWorldBob : SecretContext :=
  { level := .world, worldId := some "w1", agentId := "agent",
    requesterId := some "bob" }

/-- World-scope context of requester `boss` (OWNER of `w1`). -/
def ctxWorldBoss : SecretContext :=
  { level := .world, worldId := some "w1", agentId := "agent",
    requesterId := some "boss" }

/-- User-scope context: `alice` asking about her own secrets. -/
def ctxAlice : SecretContext :=
  { level := .user, userId := some "alice", agentId := "agent",
    requesterId := some "alice" }

/-- User-scope context: `bob` asking about `alice`'s secrets. -/
def ctxBobForAlice : SecretContext :=
  { level := .user, userId := some "alice", agentId := "agent",
    requesterId := some "bob" }

/-- Global-scope context with the agent itself as requester. -/
def ctxAgentGlobal : SecretContext :=
  { level := .global, agentId := "agent", requesterId := some "agent" }

/-- An encrypted payload whose auth tag does not verify under `stFix`'s
key. -/
def corruptPayload : EncryptedSecret :=
  { value := cipherEnc "s3cret", iv := "0", authTag := "corrupt",
    algorithm := "aes-256-gcm", keyId := "default" }

/-- A component holding the corrupted payload as `alice`'s secret `K`,
flagged encrypted. -/
def corruptComp : Component :=
  { id := "c1", entityId := "alice", type := "secret",
    data := { key := "K", value := some (.enc corruptPayload),
              metadata := some { encrypted := some true } } }

/-- A manager state holding the corrupted record. -/
def stCorrupt : SMState :=
  { agentId := "agent", encryptionKey := "KEY",
    components := [corruptComp] }

/-- The submitted (descriptor, value) pairs a submission should persist:
the declared secrets, in declaration order, restricted to those whose
submitted value is truthy. -/
def attempted (secrets : List SecretReq) (data : List (String × String)) :
    List (SecretReq × String) :=
  secrets.filterMap (fun r =>
    let v := (alookup data r.key).getD ""
    if v = "" then none else some (r, v))

/-- Sequential execution of a list of store calls, keeping each call's
state effects (including a failing call's). -/
def runCalls {σ : Type}
    (setFn : SecretReq → String → σ → Except String Unit × σ)
    (l : List (SecretReq × String)) (s : σ) : σ :=
  l.foldl (fun s p => (setFn p.1 p.2 s).2) s

/-- A store-call collaborator that always succeeds. -/
def okSetFn : SecretReq → String → Unit → Except String Unit × Unit :=
  fun _ _ s => (.ok (), s)

/-- A store-call collaborator over a call counter that fails on key `B`. -/
def failBFn : SecretReq → String → Nat → Except String Unit × Nat :=
  fun r _ s => if r.key = "B" then (.error "boom", s + 1) else (.ok (), s + 1)

/-- An optional form field `A`. -/
def fldA : FormField := { name := "A", label := "A", required := false }

/-- A required form field `B`. -/
def fldB : FormField := { name := "B", label := "B", required := true }

/-- A two-field schema over `A` (optional) and `B` (required), one
submission allowed. -/
def schemaAB : FormSchema :=
  { id := "f2", fields := [fldA, fldB], maxSubmissions := some 1,
    successMessage := "thanks" }

/-- An active session for `schemaAB` declaring secrets `A` and `B`. -/
def sessAB : FormSession :=
  { id := "s2", formId := "f2", schema := schemaAB,
    secrets := [{ key := "A" }, { key := "B" }] }

/-- A required single field `API_KEY`. -/
def fldKey : FormField :=
  { name := "API_KEY", label := "API Key", required := true }

/-- A single-field schema with `maxSubmissions = 1`. -/
def schemaKey : FormSchema :=
  { id := "f1", fields := [fldKey], maxSubmissions := some 1,
    successMessage := "thanks" }

/-- An active session for `schemaKey`. -/
def sessKey : FormSession :=
  { id := "s1", formId := "f1", schema := schemaKey,
    secrets := [{ key := "API_KEY" }] }

/-- A distinguished oldest audit-log entry. -/
def logA : SecretAccessLog :=
  { secretKey := "A", accessedBy := "alice", action := .read,
    timestamp := 0, context := ctxAlice, success := true }

/-- A filler audit-log entry different from `logA`. -/
def logB : SecretAccessLog :=
  { secretKey := "B", accessedBy := "alice", action := .read,
    timestamp := 0, context := ctxAlice, success := true }

/-- A manager state whose audit log is full (1000 entries), with the
oldest entry `logA` occurring only at the front. -/
def stLogs1000 : SMState :=
  { agentId := "agent", encryptionKey := "KEY",
    accessLogs := logA :: List.replicate 999 logB }

/-- The user-secret component lookup both `getUserSecret` and
`setUserSecret` perform: the first `secret`-typed component of the
entity whose data key matches. -/
def findSecret (l : List Component) (uid k : String) : Option Component :=
  (l.filter (fun c => c.entityId = uid)).find?
    (EnhancedSecretManager.isSecretComponent k)

/-! ## Generic lemmas about the embedding's primitive structures -/

theorem alookup_ainsert_self {α : Type} (l : List (String × α)) (k : String)
    (v : α) : alookup (ainsert l k v) k = some v := by
  induction l with
  | nil => simp [ainsert, alookup]
  | cons h t ih =>
    obtain ⟨k', v'⟩ := h
    by_cases hk : k' = k <;> simp [ainsert, alookup, hk, ih]

theorem alookup_ainsert_ne {α : Type} (l : List (String × α)) (k k' : String)
    (v : α) (h : k' ≠ k) : alookup (ainsert l k v) k' = alookup l k' := by
  induction l with
  | nil => simp [ainsert, alookup, Ne.symm h]
  | cons p t ih =>
    obtain ⟨k0, v0⟩ := p
    by_cases hk : k0 = k
    · subst hk
      simp [ainsert, alookup, Ne.symm h]
    · simp only [ainsert, if_neg hk]
      by_cases hk' : k0 = k' <;> simp [alookup, hk', ih]

theorem alookup_ainsert_isSome {α : Type} (l : List (String × α))
    (k k' : String) (v : α) (h : (alookup l k').isSome) :
    (alookup (ainsert l k v) k').isSome := by
  by_cases hk : k = k'
  · subst hk
    simp [alookup_ainsert_self]
  · rw [alookup_ainsert_ne l k k' v (fun hh => hk hh.symm)]
    exact h

theorem mem_ainsert {α : Type} (l : List (String × α)) (k : String) (v : α)
    (p : String × α) (hp : p ∈ ainsert l k v) : p = (k, v) ∨ p ∈ l := by
  induction l with
  | nil => simpa [ainsert] using hp
  | cons q t ih =>
    obtain ⟨k0, v0⟩ := q
    by_cases hk : k0 = k
    · simp only [ainsert, if_pos hk, List.mem_cons] at hp
      rcases hp with h | h
      · exact Or.inl h
      · exact Or.inr (List.mem_cons_of_mem _ h)
    · simp only [ainsert, if_neg hk, List.mem_cons] at hp
      rcases hp with h | h
      · exact Or.inr (by simp [h])
      · rcases ih h with h' | h'
        · exact Or.inl h'
        · exact Or.inr (List.mem_cons_of_mem _ h')

theorem cipherDec_cipherEnc (s : String) : cipherDec (cipherEnc s) = s := by
  cases s with
  | mk data => simp [cipherEnc, cipherDec]

theorem macTag_ne_empty (k i c : String) : macTag k i c ≠ "" := by
  intro h
  have h' := congrArg String.length h
  have h4 : ("mac|" : String).length = 4 := rfl
  have h1 : ("|" : String).length = 1 := rfl
  have h0 : ("" : String).length = 0 := rfl
  simp only [macTag, String.length_append, h4, h1, h0] at h'
  omega

namespace EnhancedSecretManager

theorem decrypt_encrypt (st st' : SMState) (s : String)
    (hk : st'.encryptionKey = st.encryptionKey) :
    decrypt st' (.enc (encrypt st s).1) = .ok s := by
  simp [decrypt, encrypt, hk, macTag_ne_empty, cipherDec_cipherEnc]

theorem checkPermission_congr (st st' : SMState) (k : String) (a : SAction)
    (ctx : SecretContext) (h1 : st'.agentId = st.agentId)
    (h2 : st'.worlds = st.worlds) :
    checkPermission st' k a ctx = checkPermission st k a ctx := by
  simp [checkPermission, h1, h2]

theorem checkPermission_logAccess (st : SMState) (k k' : String)
    (a a' : SAction) (ctx ctx' : SecretContext) (suc : Bool)
    (err : Option String) :
    checkPermission (logAccess st k' a' ctx' suc err) k a ctx
      = checkPermission st k a ctx := by
  exact checkPermission_congr _ st k a ctx rfl rfl

end EnhancedSecretManager

/-! ## Claim theorems -/

open EnhancedSecretManager SecretFormService

/-- C3 amended claim: `checkPermission` is exactly the code's rule table:
global read is always allowed and global write/delete/share allowed iff
`requesterId` equals `agentId`; world-scope checks require a truthy
`worldId` and an existing world, and then read is always allowed
(membership is NOT checked) while write/delete/share require role OWNER
or ADMIN; user read and write are allowed iff `requesterId` equals
`userId` (with a truthy `userId`); all remaining cases deny. A
user-scope `set` with `requesterId ≠ userId` returns false and leaves
the env store, worlds, components and secret cache unchanged. -/
theorem c3_permission_table (st : SMState) (k : String) (ctx : SecretContext) :
    (ctx.level = Level.global →
      checkPermission st k .read ctx = true
      ∧ ∀ a, a ≠ SAction.read →
          checkPermission st k a ctx = decide (ctx.requesterId = some st.agentId))
    ∧ (ctx.level = Level.world → truthyO ctx.worldId = true →
        (checkPermission st k .read ctx
          = (alookup st.worlds (tval ctx.worldId)).isSome)
        ∧ ∀ a, a ≠ SAction.read →
            checkPermission st k a ctx
              = match alookup st.worlds (tval ctx.worldId) with
                | none => false
                | some w => decide (roleOf w ctx = Role.OWNER)
                    || decide (roleOf w ctx = Role.ADMIN))
    ∧ (ctx.level = Level.world → truthyO ctx.worldId = false →
        ∀ a, checkPermission st k a ctx = false)
    ∧ (ctx.level = Level.user → truthyO ctx.userId = true →
        ∀ a, checkPermission st k a ctx = decide (ctx.requesterId = ctx.userId))
    ∧ (ctx.level = Level.user → truthyO ctx.userId = false →
        ∀ a, checkPermission st k a ctx = false)
    ∧ (ctx.level = Level.user → truthyO ctx.userId = true →
        ctx.requesterId ≠ ctx.userId →
        ∀ v cfg,
          (set st k v ctx cfg).1 = false
          ∧ ((set st k v ctx cfg).2).envVars = st.envVars
          ∧ ((set st k v ctx cfg).2).worlds = st.worlds
          ∧ ((set st k v ctx cfg).2).components = st.components
          ∧ ((set st k v ctx cfg).2).secretCache = st.secretCache) := by
  refine ⟨?_, ?_, ?_, ?_, ?_, ?_⟩
  · intro h
    refine ⟨by simp [checkPermission, h], ?_⟩
    intro a ha
    cases a <;> simp_all [checkPermission]
  · intro h hw
    constructor
    · simp only [checkPermission, h, hw, if_true]
      cases alookup st.worlds (tval ctx.worldId) <;> simp
    · intro a ha
      simp only [checkPermission, h, hw, if_true]
      cases alookup st.worlds (tval ctx.worldId) with
      | none => simp
      | some w => cases a <;> simp_all
  · intro h hw a
    simp [checkPermission, h, hw]
  · intro h hu a
    simp [checkPermission, h, hu]
  · intro h hu a
    simp [checkPermission, h, hu]
  · intro h hu hne v cfg
    have hperm : checkPermission (logAccess st k .write ctx true none) k .write ctx = false := by
      rw [checkPermission_logAccess]
      simp [checkPermission, h, hu, hne]
    simp only [EnhancedSecretManager.set, hperm, Bool.false_eq_true, if_false]
    simp [logAccess]

/-- Witness for C3 at concrete inputs: with an existing world in which
the requester has no role, world read is allowed; a user-scope `set` by
a different requester returns false. -/
theorem c3_permission_table_witness :
    (checkPermission stWorldFix "K" .read ctxWorldBob
      = (alookup stWorldFix.worlds (tval ctxWorldBob.worldId)).isSome)
    ∧ (set stFix "K" (.str "v") ctxBobForAlice none).1 = false := by
  constructor
  · exact ((c3_permission_table stWorldFix "K" ctxWorldBob).2.1 rfl
      (by decide)).1
  · exact ((c3_permission_table stFix "K" ctxBobForAlice).2.2.2.2.2 rfl
      (by decide) (by decide) (.str "v") none).1

/-- C3 counterexample to the claim as stated: world-scope read is
allowed even for a requester who is not a member of the world (their
role lookup yields nothing, i.e. role NONE), contradicting "world read
is allowed iff the requester is a member of the world". -/
theorem c3_counterexample :
    checkPermission stWorldFix "K" .read ctxWorldBob = true
    ∧ alookup (wEmptyRoles.roles.getD []) "bob" = none := by
  constructor
  · rfl
  · rfl

/-! ### Audit-log shape lemmas -/

theorem logAccess_bound_of (st : SMState) (k : String) (a : SAction)
    (ctx : SecretContext) (suc : Bool) (err : Option String)
    (h : st.accessLogs.length ≤ 1000) :
    (logAccess st k a ctx suc err).accessLogs.length ≤ 1000 := by
  simp only [logAccess]
  split
  · rename_i hgt
    simp only [List.length_drop]
    omega
  · rename_i hle
    simp only [List.length_append, List.length_cons, List.length_nil] at hle ⊢
    omega

theorem logAccess_noTrunc (st : SMState) (k : String) (a : SAction)
    (ctx : SecretContext) (suc : Bool) (err : Option String)
    (h : st.accessLogs.length + 1 ≤ 1000) :
    (logAccess st k a ctx suc err).accessLogs
      = st.accessLogs ++ [logEntry st k a ctx suc err] := by
  simp only [logAccess]
  rw [if_neg]
  simp only [List.length_append, List.length_cons, List.length_nil]
  omega

theorem get_snd_cases (st : SMState) (k : String) (ctx : SecretContext) :
    (get st k ctx).2 = logAccess st k .read ctx true none
    ∨ ∃ e, (get st k ctx).2
        = logAccess (logAccess st k .read ctx true none) k .read ctx false e := by
  simp only [EnhancedSecretManager.get]
  split
  · split
    · exact Or.inl rfl
    · exact Or.inr ⟨_, rfl⟩
  · exact Or.inr ⟨_, rfl⟩

theorem setGlobalSecret_logs (st : SMState) (k : String) (v : Value)
    (c : SecretConfig) :
    (setGlobalSecret st k v c).2.accessLogs = st.accessLogs := rfl

theorem encrypt_snd_fields (st : SMState) (s : String) :
    (encrypt st s).2.accessLogs = st.accessLogs
    ∧ (encrypt st s).2.agentId = st.agentId
    ∧ (encrypt st s).2.encryptionKey = st.encryptionKey
    ∧ (encrypt st s).2.worlds = st.worlds
    ∧ (encrypt st s).2.components = st.components := by
  simp [encrypt]

theorem setWorldSecret_logs (st : SMState) (k : String) (v : Value)
    (wid : String) (c : SecretConfig) (b : Bool) (st' : SMState)
    (h : setWorldSecret st k v wid c = .ok (b, st')) :
    st'.accessLogs = st.accessLogs := by
  simp only [setWorldSecret] at h
  split at h
  · exact absurd h (by simp)
  · split at h
    · exact absurd h (by simp)
    · rename_i heq
      split at heq
      · split at heq
        · simp only [Except.ok.injEq] at heq
          obtain ⟨rfl, rfl⟩ := Prod.mk.injEq .. ▸ (Except.ok.injEq .. ▸ h)
          cases heq
          simp [(encrypt_snd_fields st _).1]
        · exact absurd heq (by simp)
      · simp only [Except.ok.injEq] at heq
        obtain ⟨rfl, rfl⟩ := Prod.mk.injEq .. ▸ (Except.ok.injEq .. ▸ h)
        cases heq
        rfl

theorem setUserSecret_logs (st : SMState) (k : String) (v : Value)
    (uid : String) (c : SecretConfig) (b : Bool) (st' : SMState)
    (h : setUserSecret st k v uid c = .ok (b, st')) :
    st'.accessLogs = st.accessLogs := by
  simp only [setUserSecret] at h
  split at h
  · exact absurd h (by simp)
  · rename_i fv st1 heq
    split at heq
    · split at heq
      · simp only [Except.ok.injEq] at heq
        cases heq
        split at h <;>
          · simp only [Except.ok.injEq, Prod.mk.injEq] at h
            obtain ⟨-, rfl⟩ := h
            simp [(encrypt_snd_fields st _).1]
      · exact absurd heq (by simp)
    · simp only [Except.ok.injEq] at heq
      cases heq
      split at h <;>
        · simp only [Except.ok.injEq, Prod.mk.injEq] at h
          obtain ⟨-, rfl⟩ := h
          rfl

theorem set_snd_cases (st : SMState) (k : String) (v : Value)
    (ctx : SecretContext) (cfg : Option PartialSecretConfig) :
    ((set st k v ctx cfg).2).accessLogs
        = (logAccess st k .write ctx true none).accessLogs
    ∨ ∃ e, (set st k v ctx cfg).2
        = logAccess (logAccess st k .write ctx true none) k .write ctx false e := by
  simp only [EnhancedSecretManager.set]
  split
  · split
    · exact Or.inr ⟨_, rfl⟩
    · split
      · exact Or.inl (setGlobalSecret_logs ..)
      · split
        · split
          · rename_i r heq
            obtain ⟨b0, st0⟩ := r
            exact Or.inl (setWorldSecret_logs _ _ _ _ _ b0 st0 heq)
          · exact Or.inr ⟨_, rfl⟩
        · exact Or.inr ⟨_, rfl⟩
      · split
        · split
          · rename_i r heq
            obtain ⟨b0, st0⟩ := r
            exact Or.inl (setUserSecret_logs _ _ _ _ _ b0 st0 heq)
          · exact Or.inr ⟨_, rfl⟩
        · exact Or.inr ⟨_, rfl⟩
  · exact Or.inr ⟨_, rfl⟩

theorem get_bound (st : SMState) (k : String) (ctx : SecretContext)
    (hb : st.accessLogs.length ≤ 1000) :
    ((get st k ctx).2).accessLogs.length ≤ 1000 := by
  rcases get_snd_cases st k ctx with hc | ⟨e, hc⟩
  · rw [hc]
    exact logAccess_bound_of _ _ _ _ _ _ hb
  · rw [hc]
    exact logAccess_bound_of _ _ _ _ _ _ (logAccess_bound_of _ _ _ _ _ _ hb)

theorem set_bound (st : SMState) (k : String) (v : Value)
    (ctx : SecretContext) (cfg : Option PartialSecretConfig)
    (hb : st.accessLogs.length ≤ 1000) :
    ((set st k v ctx cfg).2).accessLogs.length ≤ 1000 := by
  rcases set_snd_cases st k v ctx cfg with hc | ⟨e, hc⟩
  · rw [hc]
    exact logAccess_bound_of _ _ _ _ _ _ hb
  · rw [hc]
    exact logAccess_bound_of _ _ _ _ _ _ (logAccess_bound_of _ _ _ _ _ _ hb)

theorem updateSecretConfig_bound (st : SMState) (k : String)
    (ctx : SecretContext) (c : SecretConfig)
    (hb : st.accessLogs.length ≤ 1000) :
    ((updateSecretConfig st k ctx c).2).accessLogs.length ≤ 1000 := by
  simp only [updateSecretConfig]
  split
  · exact get_bound st k ctx hb
  · exact set_bound _ _ _ _ _ (get_bound st k ctx hb)

theorem grantAccess_ok_bound (st : SMState) (k : String)
    (ctx : SecretContext) (g : String) (p : List String) (b : Bool)
    (st' : SMState) (hb : st.accessLogs.length ≤ 1000)
    (h : grantAccess st k ctx g p = .ok (b, st')) :
    st'.accessLogs.length ≤ 1000 := by
  simp only [EnhancedSecretManager.grantAccess] at h
  split at h
  · split at h
    · exact absurd h (by simp)
    · simp only [Except.ok.injEq, Prod.mk.injEq] at h
      obtain ⟨-, rfl⟩ := h
      exact hb
    · simp only [Except.ok.injEq] at h
      have h2 := congrArg Prod.snd h
      simp only at h2
      rw [← h2]
      exact updateSecretConfig_bound _ _ _ _ hb
  · simp only [Except.ok.injEq, Prod.mk.injEq] at h
    obtain ⟨-, rfl⟩ := h
    exact hb

theorem revokeAccess_ok_bound (st : SMState) (k : String)
    (ctx : SecretContext) (g : String) (b : Bool) (st' : SMState)
    (hb : st.accessLogs.length ≤ 1000)
    (h : revokeAccess st k ctx g = .ok (b, st')) :
    st'.accessLogs.length ≤ 1000 := by
  simp only [EnhancedSecretManager.revokeAccess] at h
  split at h
  · split at h
    · exact absurd h (by simp)
    · simp only [Except.ok.injEq, Prod.mk.injEq] at h
      obtain ⟨-, rfl⟩ := h
      exact hb
    · simp only [Except.ok.injEq] at h
      have h2 := congrArg Prod.snd h
      simp only at h2
      rw [← h2]
      exact updateSecretConfig_bound _ _ _ _ hb
  · simp only [Except.ok.injEq, Prod.mk.injEq] at h
    obtain ⟨-, rfl⟩ := h
    exact hb

/-- C5: the audit log never holds more than 1000 entries after any
logged operation completes — `logAccess` itself and the four public
operations preserve the bound — and once a 1001st entry is pushed the
oldest entry is evicted synchronously: the new log is the old one
without its head, plus the new entry, and an entry that is gone from the
log (and is not the new entry) is no longer returned by
`getAccessLogs`. -/
theorem c5_audit_bound (st : SMState) (k : String) (a : SAction)
    (ctx : SecretContext) (suc : Bool) (err : Option String) :
    (st.accessLogs.length ≤ 1000 →
      (logAccess st k a ctx suc err).accessLogs.length ≤ 1000
      ∧ (∀ k' ctx', ((get st k' ctx').2).accessLogs.length ≤ 1000)
      ∧ (∀ k' v ctx' cfg, ((set st k' v ctx' cfg).2).accessLogs.length ≤ 1000)
      ∧ (∀ k' ctx' g p b st', grantAccess st k' ctx' g p = .ok (b, st') →
          st'.accessLogs.length ≤ 1000)
      ∧ (∀ k' ctx' g b st', revokeAccess st k' ctx' g = .ok (b, st') →
          st'.accessLogs.length ≤ 1000))
    ∧ (st.accessLogs.length = 1000 →
      (logAccess st k a ctx suc err).accessLogs
        = st.accessLogs.drop 1 ++ [logEntry st k a ctx suc err]
      ∧ (∀ e0 : SecretAccessLog, e0 ∉ st.accessLogs.drop 1 →
          e0 ≠ logEntry st k a ctx suc err →
          e0 ∉ getAccessLogs (logAccess st k a ctx suc err) e0.secretKey none)) := by
  constructor
  · intro hb
    refine ⟨logAccess_bound_of _ _ _ _ _ _ hb,
      fun k' ctx' => get_bound st k' ctx' hb,
      fun k' v ctx' cfg => set_bound st k' v ctx' cfg hb,
      fun k' ctx' g p b st' h => grantAccess_ok_bound st k' ctx' g p b st' hb h,
      fun k' ctx' g b st' h => revokeAccess_ok_bound st k' ctx' g b st' hb h⟩
  · intro hlen
    have hevict : (logAccess st k a ctx suc err).accessLogs
        = st.accessLogs.drop 1 ++ [logEntry st k a ctx suc err] := by
      simp only [logAccess]
      rw [if_pos (by simp [hlen])]
      have hL : (st.accessLogs ++ [logEntry st k a ctx suc err]).length = 1001 := by
        simp [hlen]
      rw [hL]
      rw [show (1001 - 1000 : Nat) = 1 from rfl]
      rw [List.drop_append_eq_append_drop]
      simp [hlen]
    refine ⟨hevict, ?_⟩
    intro e0 hnm hne hmem
    have h1 : e0 ∈ (logAccess st k a ctx suc err).accessLogs :=
      (List.mem_filter.1 hmem).1
    rw [hevict] at h1
    rcases List.mem_append.1 h1 with h2 | h2
    · exact hnm h2
    · exact hne (by simpa using h2)

/-- Witness for C5 at a concrete full log: pushing a 1001st entry onto a
1000-entry log evicts the head `logA`, and `logA` is no longer returned
by `getAccessLogs`. -/
theorem c5_audit_bound_witness :
    ((logAccess stLogs1000 "C" .read ctxAlice true none).accessLogs
      = stLogs1000.accessLogs.drop 1
        ++ [logEntry stLogs1000 "C" .read ctxAlice true none])
    ∧ logA ∉ getAccessLogs (logAccess stLogs1000 "C" .read ctxAlice true none)
        logA.secretKey none := by
  have h := (c5_audit_bound stLogs1000 "C" .read ctxAlice true none).2
    (by simp only [stLogs1000, List.length_cons, List.length_replicate])
  refine ⟨h.1, h.2 logA ?_ (by decide)⟩
  simp only [stLogs1000, List.drop_succ_cons, List.drop_zero]
  intro hmem
  have := List.eq_of_mem_replicate hmem
  exact absurd this (by decide)

/-- Result-correlated shape of the `get` audit trail: either the call
appends exactly the attempt entry (`success = true`), or it returns
null and appends the attempt entry followed by a failure entry
(`success = false` with an error message). -/
theorem get_res_cases (st : SMState) (k : String) (ctx : SecretContext) :
    (get st k ctx).2 = logAccess st k .read ctx true none
    ∨ ∃ e, (get st k ctx).1 = none
        ∧ (get st k ctx).2
          = logAccess (logAccess st k .read ctx true none) k .read ctx
              false (some e) := by
  simp only [EnhancedSecretManager.get]
  split
  · split
    · exact Or.inl rfl
    · exact Or.inr ⟨_, rfl, rfl⟩
  · exact Or.inr ⟨_, rfl, rfl⟩

/-- A permission-denied `get` returns null and logs the attempt entry
plus the "Permission denied" failure entry. -/
theorem get_denied (st : SMState) (k : String) (ctx : SecretContext)
    (hp : checkPermission st k .read ctx = false) :
    (get st k ctx).1 = none
    ∧ (get st k ctx).2
      = logAccess (logAccess st k .read ctx true none) k .read ctx
          false (some "Permission denied") := by
  have hp1 : checkPermission (logAccess st k .read ctx true none) k .read ctx
      = false :=
    (checkPermission_logAccess st k k .read .read ctx ctx true none).trans hp
  simp only [EnhancedSecretManager.get, hp1, Bool.false_eq_true, if_false]
  exact ⟨trivial, trivial⟩

/-- Result-correlated shape of the `set` audit trail: either the call
appends exactly the attempt entry, or it returns false and appends the
attempt entry followed by a failure entry. -/
theorem set_res_cases (st : SMState) (k : String) (v : Value)
    (ctx : SecretContext) (cfg : Option PartialSecretConfig) :
    ((set st k v ctx cfg).2).accessLogs
        = (logAccess st k .write ctx true none).accessLogs
    ∨ ∃ e, (set st k v ctx cfg).1 = false
        ∧ (set st k v ctx cfg).2
          = logAccess (logAccess st k .write ctx true none) k .write ctx
              false (some e) := by
  simp only [EnhancedSecretManager.set]
  split
  · split
    · exact Or.inr ⟨_, rfl, rfl⟩
    · split
      · exact Or.inl (setGlobalSecret_logs ..)
      · split
        · split
          · rename_i r heq
            obtain ⟨b0, st0⟩ := r
            exact Or.inl (setWorldSecret_logs _ _ _ _ _ b0 st0 heq)
          · exact Or.inr ⟨_, rfl, rfl⟩
        · exact Or.inr ⟨_, rfl, rfl⟩
      · split
        · split
          · rename_i r heq
            obtain ⟨b0, st0⟩ := r
            exact Or.inl (setUserSecret_logs _ _ _ _ _ b0 st0 heq)
          · exact Or.inr ⟨_, rfl, rfl⟩
        · exact Or.inr ⟨_, rfl, rfl⟩
  · exact Or.inr ⟨_, rfl, rfl⟩

/-- A permission-denied `set` returns false and logs the attempt entry
plus the "Permission denied" failure entry. -/
theorem set_denied (st : SMState) (k : String) (v : Value)
    (ctx : SecretContext) (cfg : Option PartialSecretConfig)
    (hp : checkPermission st k .write ctx = false) :
    (set st k v ctx cfg).1 = false
    ∧ (set st k v ctx cfg).2
      = logAccess (logAccess st k .write ctx true none) k .write ctx
          false (some "Permission denied") := by
  have hp1 : checkPermission (logAccess st k .write ctx true none) k .write ctx
      = false :=
    (checkPermission_logAccess st k k .write .write ctx ctx true none).trans hp
  simp only [EnhancedSecretManager.set, hp1, Bool.false_eq_true, if_false]
  exact ⟨trivial, trivial⟩

/-- C4 amended claim: every `get`/`set` call appends exactly one audit
entry — the attempt entry, `success = true` — on the success path, and
exactly two — the attempt entry followed by a failure entry with
`success = false` and an error message — when the call is denied or
fails, never zero; the two-entry case returns null/false (so a non-null
`get` or a `true` `set` forces the one-entry case), and a denied call
lands in the two-entry case with the "Permission denied" message.
`grantAccess`/`revokeAccess` never log by themselves: with share
permission denied, or with the config absent, they return false with
the state untouched (zero entries), and on the remaining path their
result is exactly an `updateSecretConfig` call, which logs only through
its nested `get`/`set`. Stated below the 1000-entry cap, where no
truncation interferes. -/
theorem c4_logging (st : SMState) (k : String) (ctx : SecretContext)
    (h : st.accessLogs.length + 2 ≤ 1000) :
    (((get st k ctx).2).accessLogs
        = st.accessLogs ++ [logEntry st k .read ctx true none]
      ∨ ∃ e, (get st k ctx).1 = none
          ∧ ((get st k ctx).2).accessLogs
            = st.accessLogs ++ [logEntry st k .read ctx true none,
                logEntry (logAccess st k .read ctx true none) k .read ctx
                  false (some e)])
    ∧ (checkPermission st k .read ctx = false →
        (get st k ctx).1 = none
        ∧ ((get st k ctx).2).accessLogs
          = st.accessLogs ++ [logEntry st k .read ctx true none,
              logEntry (logAccess st k .read ctx true none) k .read ctx
                false (some "Permission denied")])
    ∧ (∀ v cfg,
        ((set st k v ctx cfg).2).accessLogs
            = st.accessLogs ++ [logEntry st k .write ctx true none]
        ∨ ∃ e, (set st k v ctx cfg).1 = false
            ∧ ((set st k v ctx cfg).2).accessLogs
              = st.accessLogs ++ [logEntry st k .write ctx true none,
                  logEntry (logAccess st k .write ctx true none) k .write ctx
                    false (some e)])
    ∧ (∀ v cfg, checkPermission st k .write ctx = false →
        (set st k v ctx cfg).1 = false
        ∧ ((set st k v ctx cfg).2).accessLogs
          = st.accessLogs ++ [logEntry st k .write ctx true none,
              logEntry (logAccess st k .write ctx true none) k .write ctx
                false (some "Permission denied")])
    ∧ (∀ g p, checkPermission st k .share ctx = false →
        grantAccess st k ctx g p = .ok (false, st))
    ∧ (∀ g p, checkPermission st k .share ctx = true →
        getSecretConfig st k ctx = .ok none →
        grantAccess st k ctx g p = .ok (false, st))
    ∧ (∀ g p c, checkPermission st k .share ctx = true →
        getSecretConfig st k ctx = .ok (some c) →
        ∃ c2, grantAccess st k ctx g p = .ok (updateSecretConfig st k ctx c2))
    ∧ (∀ g, checkPermission st k .share ctx = false →
        revokeAccess st k ctx g = .ok (false, st))
    ∧ (∀ g, checkPermission st k .share ctx = true →
        getSecretConfig st k ctx = .ok none →
        revokeAccess st k ctx g = .ok (false, st))
    ∧ (∀ g c, checkPermission st k .share ctx = true →
        getSecretConfig st k ctx = .ok (some c) →
        ∃ c2, revokeAccess st k ctx g = .ok (updateSecretConfig st k ctx c2)) := by
  have h1 : st.accessLogs.length + 1 ≤ 1000 := by omega
  have hst1 : (logAccess st k SAction.read ctx true none).accessLogs
      = st.accessLogs ++ [logEntry st k SAction.read ctx true none] :=
    logAccess_noTrunc _ _ _ _ _ _ h1
  have hst1w : (logAccess st k SAction.write ctx true none).accessLogs
      = st.accessLogs ++ [logEntry st k SAction.write ctx true none] :=
    logAccess_noTrunc _ _ _ _ _ _ h1
  have hlen1 : (logAccess st k SAction.read ctx true none).accessLogs.length + 1 ≤ 1000 := by
    rw [hst1]
    simp only [List.length_append, List.length_cons, List.length_nil]
    omega
  have hlen1w : (logAccess st k SAction.write ctx true none).accessLogs.length + 1 ≤ 1000 := by
    rw [hst1w]
    simp only [List.length_append, List.length_cons, List.length_nil]
    omega
  refine ⟨?_, ?_, ?_, ?_, ?_, ?_, ?_, ?_, ?_, ?_⟩
  · rcases get_res_cases st k ctx with hc | ⟨e, hres, hc⟩
    · exact Or.inl (by rw [hc]; exact hst1)
    · refine Or.inr ⟨e, hres, ?_⟩
      rw [hc, logAccess_noTrunc _ _ _ _ _ _ hlen1, hst1, List.append_assoc]
      rfl
  · intro hp
    obtain ⟨hres, hc⟩ := get_denied st k ctx hp
    refine ⟨hres, ?_⟩
    rw [hc, logAccess_noTrunc _ _ _ _ _ _ hlen1, hst1, List.append_assoc]
    rfl
  · intro v cfg
    rcases set_res_cases st k v ctx cfg with hc | ⟨e, hres, hc⟩
    · exact Or.inl (hc.trans hst1w)
    · refine Or.inr ⟨e, hres, ?_⟩
      rw [hc, logAccess_noTrunc _ _ _ _ _ _ hlen1w, hst1w, List.append_assoc]
      rfl
  · intro v cfg hp
    obtain ⟨hres, hc⟩ := set_denied st k v ctx cfg hp
    refine ⟨hres, ?_⟩
    rw [hc, logAccess_noTrunc _ _ _ _ _ _ hlen1w, hst1w, List.append_assoc]
    rfl
  · intro g p hperm
    simp [EnhancedSecretManager.grantAccess, hperm]
  · intro g p hperm hcfg
    simp [EnhancedSecretManager.grantAccess, hperm, hcfg]
  · intro g p c hperm hcfg
    simp only [EnhancedSecretManager.grantAccess, hperm, hcfg]
    exact ⟨_, rfl⟩
  · intro g hperm
    simp [EnhancedSecretManager.revokeAccess, hperm]
  · intro g hperm hcfg
    simp [EnhancedSecretManager.revokeAccess, hperm, hcfg]
  · intro g c hperm hcfg
    simp only [EnhancedSecretManager.revokeAccess, hperm, hcfg]
    exact ⟨_, rfl⟩

/-- Witness for C4: on the empty-log fixture, the user-scope `get` with
mismatched requester is denied: it returns null and appends exactly the
attempt entry plus the "Permission denied" failure entry. -/
theorem c4_logging_witness :
    (get stFix "K" ctxBobForAlice).1 = none
    ∧ ((get stFix "K" ctxBobForAlice).2).accessLogs
      = stFix.accessLogs
        ++ [logEntry stFix "K" .read ctxBobForAlice true none,
            logEntry (logAccess stFix "K" .read ctxBobForAlice true none) "K"
              .read ctxBobForAlice false (some "Permission denied")] :=
  (c4_logging stFix "K" ctxBobForAlice (by decide)).2.1 (by decide)

/-- C4 counterexample to the claim as stated: a permission-denied `get`
appends two audit entries (the attempt entry and the denial entry), not
exactly one, and a permission-denied `grantAccess` appends none. -/
theorem c4_counterexample :
    ((get stFix "K" ctxBobForAlice).2).accessLogs.length = 2
    ∧ grantAccess stFix "K" ctxBobForAlice "eve" ["read"] = .ok (false, stFix) := by
  exact ⟨rfl, rfl⟩

theorem c6_fold_aux (comps : List Component)
    (acc : List (String × SecretConfig))
    (hacc : ∀ k c, (k, c) ∈ acc → c.value = none) (k : String)
    (c : SecretConfig)
    (hm : (k, c) ∈ comps.foldl
      (fun acc c =>
        if c.type = "secret" then
          ainsert acc c.data.key { (c.data.metadata.getD {}) with value := none }
        else acc) acc) :
    c.value = none := by
  induction comps generalizing acc with
  | nil => exact hacc k c hm
  | cons hd t ih =>
    simp only [List.foldl_cons] at hm
    refine ih _ ?_ hm
    intro k' c' hm'
    by_cases hty : hd.type = "secret"
    · rw [if_pos hty] at hm'
      rcases mem_ainsert _ _ _ _ hm' with hEq | hIn
      · have : c' = { (hd.data.metadata.getD {}) with value := none } :=
          congrArg Prod.snd hEq
        rw [this]
      · exact hacc _ _ hIn
    · rw [if_neg hty] at hm'
      exact hacc _ _ hm'

/-- C6: every entry of the mapping returned by `list` carries no value —
the `value` field is stripped to `undefined` at all three levels,
including immediately after a successful `set` of that key (the theorem
quantifies over every state, so in particular over post-`set` states). -/
theorem c6_list_strips_value (st : SMState) (ctx : SecretContext)
    (m : List (String × SecretConfig))
    (h : EnhancedSecretManager.list st ctx = .ok m) (k : String)
    (c : SecretConfig) (hm : (k, c) ∈ m) : c.value = none := by
  cases hl : ctx.level with
  | global =>
    simp only [EnhancedSecretManager.list, hl, Except.ok.injEq] at h
    subst h
    obtain ⟨p, -, hpe⟩ := List.mem_map.1 hm
    have : c = { p.2 with value := none } := (congrArg Prod.snd hpe).symm
    rw [this]
  | world =>
    simp only [EnhancedSecretManager.list, hl] at h
    split at h
    · simp only [Except.ok.injEq] at h
      subst h
      obtain ⟨p, -, hpe⟩ := List.mem_map.1 hm
      have : c = { p.2 with value := none } := (congrArg Prod.snd hpe).symm
      rw [this]
    · exact absurd h (by simp)
  | user =>
    simp only [EnhancedSecretManager.list, hl] at h
    split at h
    · simp only [Except.ok.injEq] at h
      subst h
      exact c6_fold_aux _ [] (by simp) k c hm
    · exact absurd h (by simp)

/-- The state right after `alice` successfully stores secret `K`. -/
def stPostC6 : SMState := (set stFix "K" (.str "hi") ctxAlice none).2

/-- The mapping `list` returns for `alice` on that state. -/
def mC6 : List (String × SecretConfig) :=
  match EnhancedSecretManager.list stPostC6 ctxAlice with
  | .ok m => m
  | .error _ => []

/-- The config entry of that mapping. -/
def c0C6 : SecretConfig := (mC6.head?.map (fun p => p.2)).getD {}

/-- Witness for C6: immediately after a successful `set`, the listed
entry for the key carries no value. -/
theorem c6_list_strips_value_witness : c0C6.value = none :=
  c6_list_strips_value stPostC6 ctxAlice mC6 rfl "K" c0C6
    (List.mem_cons_self _ _)

theorem logAccess_components (st : SMState) (k : String) (a : SAction)
    (ctx : SecretContext) (suc : Bool) (err : Option String) :
    (logAccess st k a ctx suc err).components = st.components := rfl

theorem logAccess_encryptionKey (st : SMState) (k : String) (a : SAction)
    (ctx : SecretContext) (suc : Bool) (err : Option String) :
    (logAccess st k a ctx suc err).encryptionKey = st.encryptionKey := rfl

theorem logAccess_envVars (st : SMState) (k : String) (a : SAction)
    (ctx : SecretContext) (suc : Bool) (err : Option String) :
    (logAccess st k a ctx suc err).envVars = st.envVars := rfl

theorem logAccess_worlds (st : SMState) (k : String) (a : SAction)
    (ctx : SecretContext) (suc : Bool) (err : Option String) :
    (logAccess st k a ctx suc err).worlds = st.worlds := rfl

theorem logAccess_secretCache (st : SMState) (k : String) (a : SAction)
    (ctx : SecretContext) (suc : Bool) (err : Option String) :
    (logAccess st k a ctx suc err).secretCache = st.secretCache := rfl

/-- C2 amended claim: `get` never throws, and returns null both for a
missing key and for a denied request; the internal `decrypt` does throw
on a corrupted auth tag, but `get` catches the error, logs it and
returns null too — so at the `get` interface corrupted ciphertext is
not distinguishable from an absent value. -/
theorem c2_get_null (st : SMState) (k : String) (ctx : SecretContext) :
    (checkPermission st k .read ctx = false → (get st k ctx).1 = none)
    ∧ (ctx.level = Level.user → truthyO ctx.userId = true →
        (st.components.filter (fun c => c.entityId = tval ctx.userId)).find?
          (isSecretComponent k) = none →
        (get st k ctx).1 = none)
    ∧ (∀ e : EncryptedSecret, e.authTag ≠ macTag st.encryptionKey e.iv e.value →
        ∃ msg, decrypt st (.enc e) = .error msg)
    ∧ (∀ (e : EncryptedSecret) (c : Component), ctx.level = Level.user →
        truthyO ctx.userId = true →
        (st.components.filter (fun x => x.entityId = tval ctx.userId)).find?
          (isSecretComponent k) = some c →
        c.data.value = some (.enc e) →
        (c.data.metadata.map (fun m => m.encrypted.getD false)).getD false = true →
        e.algorithm ≠ "" →
        e.authTag ≠ macTag st.encryptionKey e.iv e.value →
        (get st k ctx).1 = none) := by
  have hdeny : checkPermission st k .read ctx = false → (get st k ctx).1 = none := by
    intro hp
    have hp1 : checkPermission (logAccess st k .read ctx true none) k SAction.read ctx = false := by
      rw [checkPermission_logAccess]
      exact hp
    simp [EnhancedSecretManager.get, hp1]
  have hdec : ∀ e : EncryptedSecret,
      e.authTag ≠ macTag st.encryptionKey e.iv e.value →
      ∃ msg, decrypt st (.enc e) = .error msg := by
    intro e he
    refine ⟨"Unsupported state or unable to authenticate data", ?_⟩
    simp only [EnhancedSecretManager.decrypt]
    by_cases h0 : e.authTag = ""
    · rw [if_neg (not_not_intro h0)]
    · rw [if_pos h0, if_neg he]
  refine ⟨hdeny, ?_, hdec, ?_⟩
  · intro hl hu hfind
    by_cases hp : checkPermission st k .read ctx = true
    · have hp1 : checkPermission (logAccess st k .read ctx true none) k SAction.read ctx = true := by
        rw [checkPermission_logAccess]
        exact hp
      simp [EnhancedSecretManager.get, hp1, hl, hu,
        EnhancedSecretManager.getUserSecret, logAccess_components, hfind]
    · exact hdeny (by simpa using hp)
  · intro e c hl hu hfind hval hmeta halg htag
    by_cases hp : checkPermission st k .read ctx = true
    · have hp1 : checkPermission (logAccess st k .read ctx true none) k SAction.read ctx = true := by
        rw [checkPermission_logAccess]
        exact hp
      have he' : e.authTag
          ≠ macTag (logAccess st k .read ctx true none).encryptionKey e.iv e.value := by
        rw [logAccess_encryptionKey]
        exact htag
      have herr : decrypt (logAccess st k .read ctx true none) (.enc e)
          = .error "Unsupported state or unable to authenticate data" := by
        simp only [EnhancedSecretManager.decrypt]
        by_cases h0 : e.authTag = ""
        · rw [if_neg (not_not_intro h0)]
        · rw [if_pos h0, if_neg he']
      simp [EnhancedSecretManager.get, hp1, hl, hu,
        EnhancedSecretManager.getUserSecret, logAccess_components, hfind,
        hval, hmeta, halg, herr, vtruthyO, vtruthy]
    · exact hdeny (by simpa using hp)

/-- Witness for C2: a denied read returns null, and a read of a record
with a corrupted auth tag returns null (rather than throwing). -/
theorem c2_get_null_witness :
    (get stFix "K" ctxBobForAlice).1 = none
    ∧ (get stCorrupt "K" ctxAlice).1 = none := by
  refine ⟨(c2_get_null stFix "K" ctxBobForAlice).1 (by decide), ?_⟩
  exact (c2_get_null stCorrupt "K" ctxAlice).2.2.2 corruptPayload corruptComp
    rfl (by decide) rfl rfl rfl (by decide) (by decide)

/-- C2 counterexample to the claim as stated: reading the stored record
whose auth tag is corrupted does NOT throw — `get` returns null, exactly
as for an absent value — even though the internal `decrypt` of that
payload throws; corrupted ciphertext is therefore not distinguishable
from an absent value at the `get` interface. -/
theorem c2_counterexample :
    (get stCorrupt "K" ctxAlice).1 = none
    ∧ (get stFix "K" ctxAlice).1 = none
    ∧ decrypt stCorrupt (.enc corruptPayload)
        = .error "Unsupported state or unable to authenticate data" := by
  exact ⟨rfl, rfl, rfl⟩

/-! ### Form-service lemmas and claims -/

theorem vsub_fold_presence (data : List (String × String))
    (fields : List FormField) (acc : List (String × String)) (n : String)
    (h : (alookup acc n).isSome) :
    (alookup (fields.foldl
      (fun errors f =>
        match validateField data f with
        | some m => ainsert errors f.name m
        | none => errors) acc) n).isSome := by
  induction fields generalizing acc with
  | nil => exact h
  | cons hd t ih =>
    simp only [List.foldl_cons]
    apply ih
    cases hv : validateField data hd with
    | none => simpa [hv] using h
    | some m =>
      simp only [hv]
      exact alookup_ainsert_isSome _ _ _ _ h

theorem vsub_fold_entry (data : List (String × String))
    (fields : List FormField) (acc : List (String × String)) (f : FormField)
    (hf : f ∈ fields) (m : String) (hv : validateField data f = some m) :
    (alookup (fields.foldl
      (fun errors f =>
        match validateField data f with
        | some m => ainsert errors f.name m
        | none => errors) acc) f.name).isSome := by
  induction fields generalizing acc with
  | nil => cases hf
  | cons hd t ih =>
    simp only [List.foldl_cons]
    rcases List.mem_cons.1 hf with rfl | hf'
    · apply vsub_fold_presence
      simp [hv, alookup_ainsert_self]
    · exact ih _ hf'

/-- C8: a submission whose payload fails field validation is rejected
atomically: the handler answers with the field → message error map, the
map has an entry for every failing field, no `SecretStore.set` call is
made, and the session (submissions and status) and the store state are
unchanged. -/
theorem c8_validation_atomic {σ : Type} (now : Nat)
    (setFn : SecretReq → String → σ → Except String Unit × σ)
    (session : FormSession) (body : List (String × String)) (s : σ)
    (hactive : session.status = .active)
    (hinvalid : validateSubmission session.schema body ≠ []) :
    (handleSubmit now setFn session body s).resp
        = .badRequest (validateSubmission session.schema body)
    ∧ (handleSubmit now setFn session body s).session = session
    ∧ (handleSubmit now setFn session body s).store = s
    ∧ (handleSubmit now setFn session body s).calls = []
    ∧ (∀ f ∈ session.schema.fields, ∀ m, validateField body f = some m →
        (alookup (validateSubmission session.schema body) f.name).isSome) := by
  have hs1 : ¬ session.status ≠ SessionStatus.active := not_not_intro hactive
  simp only [SecretFormService.handleSubmit]
  rw [if_neg hs1, if_pos hinvalid]
  refine ⟨rfl, rfl, rfl, rfl, ?_⟩
  intro f hf m hv
  exact vsub_fold_entry body session.schema.fields [] f hf m hv

/-- Witness for C8: an empty payload against the single-required-field
session yields the error map with the field's entry, no calls and an
unchanged session. -/
theorem c8_validation_atomic_witness :
    (handleSubmit 5 okSetFn sessKey [] ()).resp
        = .badRequest [("API_KEY", "API Key is required")]
    ∧ (handleSubmit 5 okSetFn sessKey [] ()).session = sessKey
    ∧ (handleSubmit 5 okSetFn sessKey [] ()).calls = [] := by
  have h := c8_validation_atomic 5 okSetFn sessKey [] () rfl (by decide)
  exact ⟨h.1, h.2.1, h.2.2.2.1⟩

/-- C10: in submission handling the record is appended to
`session.submissions` before the secrets are persisted; if persistence
throws, the handler answers 500 but the record is retained: the status
stays `active` and the status endpoint reports the incremented
`submissionsCount` (so the failed submission counts toward
`maxSubmissions`, which compares against that same list's length). -/
theorem c10_failed_submission_retained {σ : Type} (now : Nat)
    (setFn : SecretReq → String → σ → Except String Unit × σ)
    (session : FormSession) (body : List (String × String)) (s : σ)
    (hactive : session.status = .active)
    (hvalid : validateSubmission session.schema body = [])
    (herr : ∃ err, (storeSubmittedSecrets setFn session.secrets body s).res
        = .error err) :
    (handleSubmit now setFn session body s).resp
        = .serverError "Failed to process submission"
    ∧ (handleSubmit now setFn session body s).session.submissions
        = session.submissions
          ++ [{ formId := session.formId, sessionId := session.id,
                data := body, submittedAt := now }]
    ∧ (handleSubmit now setFn session body s).session.status
        = SessionStatus.active
    ∧ (handleStatus (handleSubmit now setFn session body s).session).submissionsCount
        = session.submissions.length + 1
    ∧ (handleSubmit now setFn session body s).store
        = (storeSubmittedSecrets setFn session.secrets body s).store
    ∧ (handleSubmit now setFn session body s).calls
        = (storeSubmittedSecrets setFn session.secrets body s).calls := by
  obtain ⟨err, herr⟩ := herr
  have hs1 : ¬ session.status ≠ SessionStatus.active := not_not_intro hactive
  have hs2 : ¬ validateSubmission session.schema body ≠ [] := not_not_intro hvalid
  simp only [SecretFormService.handleSubmit]
  rw [if_neg hs1, if_neg hs2, herr]
  refine ⟨rfl, rfl, hactive, ?_, rfl, rfl⟩
  simp [SecretFormService.handleStatus, List.length_append]

/-- Witness for C10: the two-secret session whose store fails on `B`
answers 500, retains the submission, stays active and reports one
submission. -/
theorem c10_failed_submission_retained_witness :
    (handleSubmit 5 failBFn sessAB [("A", "a"), ("B", "x")] 0).resp
        = .serverError "Failed to process submission"
    ∧ (handleSubmit 5 failBFn sessAB [("A", "a"), ("B", "x")] 0).session.status
        = SessionStatus.active
    ∧ (handleStatus (handleSubmit 5 failBFn sessAB
        [("A", "a"), ("B", "x")] 0).session).submissionsCount = 1 := by
  have h := c10_failed_submission_retained 5 failBFn sessAB
    [("A", "a"), ("B", "x")] 0 rfl (by decide) ⟨"boom", rfl⟩
  exact ⟨h.1, h.2.2.1, h.2.2.2.1⟩

theorem handleSubmit_nonactive {σ : Type} (now : Nat)
    (setFn : SecretReq → String → σ → Except String Unit × σ)
    (session : FormSession) (body : List (String × String)) (s : σ)
    (h : session.status ≠ SessionStatus.active) :
    handleSubmit now setFn session body s
      = ⟨.gone "Form expired or completed", session, s, [], false⟩ := by
  simp only [SecretFormService.handleSubmit]
  rw [if_pos h]

theorem handleSubmit_ok_completed {σ : Type} (now : Nat)
    (setFn : SecretReq → String → σ → Except String Unit × σ)
    (session : FormSession) (body : List (String × String)) (s : σ)
    (hmax : maxSubT session.schema = 1) (m : String)
    (hok : (handleSubmit now setFn session body s).resp = .ok m) :
    (handleSubmit now setFn session body s).session.status
        = SessionStatus.completed
    ∧ (handleSubmit now setFn session body s).closeRequested = true := by
  by_cases h1 : session.status ≠ SessionStatus.active
  · rw [handleSubmit_nonactive now setFn session body s h1] at hok
    exact absurd hok (by simp)
  · by_cases h2 : validateSubmission session.schema body = []
    · have hs2 : ¬ validateSubmission session.schema body ≠ [] := not_not_intro h2
      have hcomp : maxSubT session.schema
          ≤ (session.submissions ++
              [({ formId := session.formId, sessionId := session.id,
                  data := body, submittedAt := now } : FormSubmission)]).length := by
        rw [hmax]
        simp only [List.length_append, List.length_cons, List.length_nil]
        omega
      cases hres : (storeSubmittedSecrets setFn session.secrets body s).res with
      | error e =>
        simp only [SecretFormService.handleSubmit] at hok
        rw [if_neg h1, if_neg hs2, hres] at hok
        simp at hok
      | ok u =>
        cases u
        simp only [SecretFormService.handleSubmit] at hok ⊢
        rw [if_neg h1, if_neg hs2, hres] at hok ⊢
        rw [if_pos hcomp] at hok ⊢
        cases hc : session.callback with
        | none =>
          exact ⟨by simp, by simp [hmax, Nat.le_add_left]⟩
        | some cb =>
          cases hcb : cb ({ formId := session.formId, sessionId := session.id,
                            data := body, submittedAt := now } : FormSubmission) with
          | ok u2 =>
            exact ⟨by simp [hcb], by simp [hcb, hmax, Nat.le_add_left]⟩
          | error e2 =>
            simp [hc, hcb] at hok
    · simp only [SecretFormService.handleSubmit] at hok
      rw [if_neg h1, if_pos h2] at hok
      simp at hok

/-- C7: for a session with `maxSubmissions = 1`, an accepted submission
(one whose handler response is the success acknowledgment) transitions
the status from `active` to `completed` and triggers session closing;
any subsequent submission or form-page request against the resulting
session is rejected as non-active (410), changing nothing and making no
store call; and no submit-handler run ever returns a session's status to
`active` (the page and status handlers do not write the session at all),
so `completed`/`expired` are terminal. -/
theorem c7_session_lifecycle {σ : Type} (now : Nat)
    (setFn : SecretReq → String → σ → Except String Unit × σ)
    (session : FormSession) (body : List (String × String)) (s : σ)
    (hmax : maxSubT session.schema = 1) :
    (∀ m, (handleSubmit now setFn session body s).resp = .ok m →
      (handleSubmit now setFn session body s).session.status
          = SessionStatus.completed
      ∧ (handleSubmit now setFn session body s).closeRequested = true
      ∧ handleFormPage (handleSubmit now setFn session body s).session
          = .gone "This form has expired or been completed."
      ∧ (∀ (σ' : Type) (now' : Nat)
          (setFn' : SecretReq → String → σ' → Except String Unit × σ')
          (body' : List (String × String)) (s' : σ'),
          handleSubmit now' setFn' (handleSubmit now setFn session body s).session
              body' s'
            = ⟨.gone "Form expired or completed",
               (handleSubmit now setFn session body s).session, s', [], false⟩))
    ∧ (∀ session' : FormSession,
        (handleSubmit now setFn session' body s).session.status
            = SessionStatus.active →
        session'.status = SessionStatus.active) := by
  constructor
  · intro m hok
    obtain ⟨hstat, hclose⟩ :=
      handleSubmit_ok_completed now setFn session body s hmax m hok
    have hne : (handleSubmit now setFn session body s).session.status
        ≠ SessionStatus.active := by
      rw [hstat]
      exact fun h => SessionStatus.noConfusion h
    refine ⟨hstat, hclose, ?_, ?_⟩
    · simp only [SecretFormService.handleFormPage]
      rw [if_pos hne]
    · intro σ' now' setFn' body' s'
      exact handleSubmit_nonactive now' setFn' _ body' s' hne
  · intro session' h
    by_cases hs : session'.status = SessionStatus.active
    · exact hs
    · exfalso
      rw [handleSubmit_nonactive now setFn session' body s hs] at h
      exact hs h

/-- Witness for C7: submitting once to the single-submission fixture
session completes it, requests closing, and a second submission or page
request is rejected as gone. -/
theorem c7_session_lifecycle_witness :
    (handleSubmit 5 okSetFn sessKey [("API_KEY", "sk-test-123")] ()).session.status
        = SessionStatus.completed
    ∧ (handleSubmit 5 okSetFn sessKey [("API_KEY", "sk-test-123")] ()).closeRequested
        = true
    ∧ handleFormPage
        (handleSubmit 5 okSetFn sessKey [("API_KEY", "sk-test-123")] ()).session
        = .gone "This form has expired or been completed." := by
  have h := (c7_session_lifecycle 5 okSetFn sessKey [("API_KEY", "sk-test-123")] ()
    rfl).1 "thanks" rfl
  exact ⟨h.1, h.2.1, h.2.2.1⟩

theorem attempted_cons (r : SecretReq) (rest : List SecretReq)
    (data : List (String × String)) :
    attempted (r :: rest) data
      = if (alookup data r.key).getD "" = "" then attempted rest data
        else (r, (alookup data r.key).getD "") :: attempted rest data := by
  by_cases hv : (alookup data r.key).getD "" = "" <;>
    simp [attempted, List.filterMap_cons, hv]

theorem runCalls_cons {σ : Type}
    (setFn : SecretReq → String → σ → Except String Unit × σ)
    (p : SecretReq × String) (l : List (SecretReq × String)) (s : σ) :
    runCalls setFn (p :: l) s = runCalls setFn l (setFn p.1 p.2 s).2 := rfl

theorem store_ok_char {σ : Type}
    (setFn : SecretReq → String → σ → Except String Unit × σ)
    (secrets : List SecretReq) (data : List (String × String)) (s : σ)
    (hok : (storeSubmittedSecrets setFn secrets data s).res = .ok ()) :
    (storeSubmittedSecrets setFn secrets data s).calls = attempted secrets data
    ∧ (storeSubmittedSecrets setFn secrets data s).store
        = runCalls setFn (attempted secrets data) s := by
  induction secrets generalizing s with
  | nil => exact ⟨rfl, rfl⟩
  | cons r rest ih =>
    rw [attempted_cons]
    by_cases hv : (alookup data r.key).getD "" = ""
    · rw [if_pos hv]
      have hred : storeSubmittedSecrets setFn (r :: rest) data s
          = storeSubmittedSecrets setFn rest data s := by
        simp only [SecretFormService.storeSubmittedSecrets]
        rw [if_pos hv]
      rw [hred] at hok ⊢
      exact ih s hok
    · rw [if_neg hv]
      cases hcall : setFn r ((alookup data r.key).getD "") s with
      | mk res s1 =>
        cases res with
        | ok u =>
          have hred : storeSubmittedSecrets setFn (r :: rest) data s
              = ⟨(storeSubmittedSecrets setFn rest data s1).res,
                 (storeSubmittedSecrets setFn rest data s1).store,
                 (r, (alookup data r.key).getD "")
                   :: (storeSubmittedSecrets setFn rest data s1).calls⟩ := by
            simp only [SecretFormService.storeSubmittedSecrets]
            rw [if_neg hv, hcall]
          rw [hred] at hok ⊢
          obtain ⟨hc, hs'⟩ := ih s1 hok
          refine ⟨by rw [hc], ?_⟩
          rw [hs', runCalls_cons]
          have : (setFn r ((alookup data r.key).getD "") s).2 = s1 := by
            rw [hcall]
          rw [this]
        | error e =>
          have hred : storeSubmittedSecrets setFn (r :: rest) data s
              = ⟨.error e, s1, [(r, (alookup data r.key).getD "")]⟩ := by
            simp only [SecretFormService.storeSubmittedSecrets]
            rw [if_neg hv, hcall]
          rw [hred] at hok
          exact absurd hok (by simp)

theorem store_err_char {σ : Type}
    (setFn : SecretReq → String → σ → Except String Unit × σ)
    (secrets : List SecretReq) (data : List (String × String)) (s : σ)
    (err : String)
    (herr : (storeSubmittedSecrets setFn secrets data s).res = .error err) :
    ∃ pre rv post, attempted secrets data = pre ++ rv :: post
      ∧ (storeSubmittedSecrets setFn secrets data s).calls = pre ++ [rv]
      ∧ (storeSubmittedSecrets setFn secrets data s).store
          = runCalls setFn (pre ++ [rv]) s
      ∧ (setFn rv.1 rv.2 (runCalls setFn pre s)).1 = .error err := by
  induction secrets generalizing s with
  | nil => exact absurd herr (by simp [SecretFormService.storeSubmittedSecrets])
  | cons r rest ih =>
    by_cases hv : (alookup data r.key).getD "" = ""
    · have hred : storeSubmittedSecrets setFn (r :: rest) data s
          = storeSubmittedSecrets setFn rest data s := by
        simp only [SecretFormService.storeSubmittedSecrets]
        rw [if_pos hv]
      rw [hred] at herr ⊢
      obtain ⟨pre, rv, post, h1, h2, h3, h4⟩ := ih s herr
      exact ⟨pre, rv, post, by rw [attempted_cons, if_pos hv, h1], h2, h3, h4⟩
    · cases hcall : setFn r ((alookup data r.key).getD "") s with
      | mk res s1 =>
        cases res with
        | ok u =>
          have hred : storeSubmittedSecrets setFn (r :: rest) data s
              = ⟨(storeSubmittedSecrets setFn rest data s1).res,
                 (storeSubmittedSecrets setFn rest data s1).store,
                 (r, (alookup data r.key).getD "")
                   :: (storeSubmittedSecrets setFn rest data s1).calls⟩ := by
            simp only [SecretFormService.storeSubmittedSecrets]
            rw [if_neg hv, hcall]
          rw [hred] at herr ⊢
          obtain ⟨pre, rv, post, h1, h2, h3, h4⟩ := ih s1 herr
          refine ⟨(r, (alookup data r.key).getD "") :: pre, rv, post, ?_, ?_, ?_, ?_⟩
          · rw [attempted_cons, if_neg hv, h1]
            rfl
          · simp only [h2]
            rfl
          · rw [List.cons_append, runCalls_cons]
            have hs1 : (setFn r ((alookup data r.key).getD "") s).2 = s1 := by
              rw [hcall]
            rw [hs1]
            exact h3
          · rw [runCalls_cons]
            have hs1 : (setFn r ((alookup data r.key).getD "") s).2 = s1 := by
              rw [hcall]
            rw [hs1]
            exact h4
        | error e =>
          have hred : storeSubmittedSecrets setFn (r :: rest) data s
              = ⟨.error e, s1, [(r, (alookup data r.key).getD "")]⟩ := by
            simp only [SecretFormService.storeSubmittedSecrets]
            rw [if_neg hv, hcall]
          rw [hred] at herr ⊢
          have he : e = err := by
            simpa using herr
          subst he
          refine ⟨[], (r, (alookup data r.key).getD ""), attempted rest data,
            ?_, rfl, ?_, ?_⟩
          · rw [attempted_cons, if_neg hv]
            rfl
          · rw [List.nil_append, runCalls_cons]
            have hs1 : (setFn r ((alookup data r.key).getD "") s).2 = s1 := by
              rw [hcall]
            rw [hs1]
            rfl
          · have hs1 : (setFn r ((alookup data r.key).getD "") s).1 = .error e := by
              rw [hcall]
            exact hs1

theorem handleSubmit_store_link {σ : Type} (now : Nat)
    (setFn : SecretReq → String → σ → Except String Unit × σ)
    (session : FormSession) (body : List (String × String)) (s : σ)
    (hactive : session.status = .active)
    (hvalid : validateSubmission session.schema body = []) :
    (handleSubmit now setFn session body s).calls
        = (storeSubmittedSecrets setFn session.secrets body s).calls
    ∧ (handleSubmit now setFn session body s).store
        = (storeSubmittedSecrets setFn session.secrets body s).store := by
  have hs1 : ¬ session.status ≠ SessionStatus.active := not_not_intro hactive
  have hs2 : ¬ validateSubmission session.schema body ≠ [] := not_not_intro hvalid
  simp only [SecretFormService.handleSubmit]
  rw [if_neg hs1, if_neg hs2]
  cases hres : (storeSubmittedSecrets setFn session.secrets body s).res with
  | error e => exact ⟨rfl, rfl⟩
  | ok u =>
    cases hc : session.callback with
    | none => constructor <;> simp [apply_ite]
    | some cb =>
      cases hcb : cb ({ formId := session.formId, sessionId := session.id,
                        data := body, submittedAt := now } : FormSubmission) with
      | ok u2 => constructor <;> simp [apply_ite, hcb]
      | error e2 => constructor <;> simp [apply_ite, hcb]

/-- C9 amended claim: on a fully valid submission the handler persists
by calling `SecretStore.set` once per declared secret whose submitted
value is non-empty, sequentially in declaration order (the `attempted`
list); when every call succeeds the call trace is exactly that list and
the final store state is their sequential composition; when one call
throws, the trace is the preceding calls plus the failing one — the
remaining declared secrets are not attempted — and the store state keeps
the effects of the earlier calls (and of the failing call itself): no
rollback. -/
theorem c9_sequential_store {σ : Type}
    (setFn : SecretReq → String → σ → Except String Unit × σ)
    (secrets : List SecretReq) (data : List (String × String)) (s : σ) :
    ((storeSubmittedSecrets setFn secrets data s).res = .ok () →
      (storeSubmittedSecrets setFn secrets data s).calls = attempted secrets data
      ∧ (storeSubmittedSecrets setFn secrets data s).store
          = runCalls setFn (attempted secrets data) s)
    ∧ (∀ err, (storeSubmittedSecrets setFn secrets data s).res = .error err →
      ∃ pre rv post, attempted secrets data = pre ++ rv :: post
        ∧ (storeSubmittedSecrets setFn secrets data s).calls = pre ++ [rv]
        ∧ (storeSubmittedSecrets setFn secrets data s).store
            = runCalls setFn (pre ++ [rv]) s
        ∧ (setFn rv.1 rv.2 (runCalls setFn pre s)).1 = .error err)
    ∧ (∀ (now : Nat) (session : FormSession), session.status = .active →
        validateSubmission session.schema data = [] → session.secrets = secrets →
        (handleSubmit now setFn session data s).calls
            = (storeSubmittedSecrets setFn secrets data s).calls
        ∧ (handleSubmit now setFn session data s).store
            = (storeSubmittedSecrets setFn secrets data s).store) := by
  refine ⟨store_ok_char setFn secrets data s,
    fun err herr => store_err_char setFn secrets data s err herr, ?_⟩
  intro now session hactive hvalid hsec
  rw [← hsec]
  exact handleSubmit_store_link now setFn session data s hactive hvalid

/-- Witness for C9: on the two-secret fixture with an always-succeeding
store, the call trace is exactly the attempted list and the state is the
sequential composition. -/
theorem c9_sequential_store_witness :
    (storeSubmittedSecrets okSetFn sessAB.secrets [("A", "a"), ("B", "x")] ()).calls
        = attempted sessAB.secrets [("A", "a"), ("B", "x")]
    ∧ (storeSubmittedSecrets okSetFn sessAB.secrets [("A", "a"), ("B", "x")] ()).store
        = runCalls okSetFn (attempted sessAB.secrets [("A", "a"), ("B", "x")]) () :=
  (c9_sequential_store okSetFn sessAB.secrets [("A", "a"), ("B", "x")] ()).1 rfl

/-- C9 counterexample to the claim as stated: a fully valid submission
that leaves the optional declared secret `A` empty is accepted, but
`SecretStore.set` is called only for `B` — not once per declared
secret. -/
theorem c9_counterexample :
    (handleSubmit 5 okSetFn sessAB [("B", "x")] ()).resp = .ok "thanks"
    ∧ sessAB.secrets.map (fun r => r.key) = ["A", "B"]
    ∧ (handleSubmit 5 okSetFn sessAB [("B", "x")] ()).calls.map (fun p => p.1.key)
        = ["B"] := by
  exact ⟨rfl, rfl, rfl⟩

/-! ### Round-trip (C1) -/

theorem c1_global (st : SMState) (ctx : SecretContext) (k v : String)
    (cfg : Option PartialSecretConfig) (hv : v ≠ "")
    (hl : ctx.level = Level.global) (hk : ¬ k.data.take 4 = "ENV_".data)
    (hset : (set st k (.str v) ctx cfg).1 = true) :
    (get (set st k (.str v) ctx cfg).2 k ctx).1 = some (.str v) := by
  simp only [EnhancedSecretManager.set, hl] at hset ⊢
  by_cases hperm : checkPermission (logAccess st k .write ctx true none) k
      SAction.write ctx = true
  · rw [if_pos hperm] at hset ⊢
    by_cases hval : ((truthyO (cfg.bind fun c => c.validationMethod)
          || truthyO (cfg.bind fun c => c.type))
        && !(logAccess st k .write ctx true none).validator k (.str v)
          (orTruthy (cfg.bind fun c => c.type) "secret")
          (cfg.bind fun c => c.validationMethod)) = true
    · rw [if_pos hval] at hset
      simp at hset
    · rw [if_neg (by simpa using hval)] at hset ⊢
      simp only [EnhancedSecretManager.setGlobalSecret]
      rw [if_neg hk]
      simp [EnhancedSecretManager.get, hl, EnhancedSecretManager.checkPermission,
        EnhancedSecretManager.getGlobalSecret, logAccess_envVars,
        alookup_ainsert_self, vtruthyO, vtruthy, hv]
  · rw [if_neg (by simpa using hperm)] at hset
    simp at hset

theorem decrypt_congr (st st' : SMState)
    (h : st'.encryptionKey = st.encryptionKey) (x : Value) :
    decrypt st' x = decrypt st x := by
  cases x <;> simp [EnhancedSecretManager.decrypt, h]

theorem encrypt_worlds (st : SMState) (s : String) :
    (encrypt st s).2.worlds = st.worlds := rfl

theorem encrypt_secretCache (st : SMState) (s : String) :
    (encrypt st s).2.secretCache = st.secretCache := rfl

theorem encrypt_encryptionKey (st : SMState) (s : String) :
    (encrypt st s).2.encryptionKey = st.encryptionKey := rfl

theorem encrypt_components (st : SMState) (s : String) :
    (encrypt st s).2.components = st.components := rfl

theorem encrypt_agentId (st : SMState) (s : String) :
    (encrypt st s).2.agentId = st.agentId := rfl

theorem get_world_cache (st : SMState) (ctx : SecretContext) (k v : String)
    (hl : ctx.level = Level.world) (hw : truthyO ctx.worldId = true)
    (hwx : (alookup st.worlds (tval ctx.worldId)).isSome)
    (cfg' : SecretConfig)
    (hcache : (alookup st.secretCache ("world:" ++ tval ctx.worldId)).bind
        (fun m => alookup m k) = some cfg')
    (hgood : (cfg'.encrypted.getD false = false ∧ cfg'.value = some (.str v) ∧ v ≠ "")
      ∨ (cfg'.encrypted.getD false = true ∧ ∃ fv, cfg'.value = some fv
          ∧ vtruthy fv = true ∧ decrypt st fv = .ok v)) :
    (get st k ctx).1 = some (.str v) := by
  obtain ⟨w2, hw2⟩ := Option.isSome_iff_exists.1 hwx
  have hperm : checkPermission (logAccess st k .read ctx true none) k
      SAction.read ctx = true := by
    rw [checkPermission_logAccess]
    simp [EnhancedSecretManager.checkPermission, hl, hw, hw2]
  have hcache1 : (alookup (logAccess st k SAction.read ctx true none).secretCache
      ("world:" ++ tval ctx.worldId)).bind (fun m => alookup m k) = some cfg' := by
    rw [logAccess_secretCache]
    exact hcache
  have hwsv : getWorldSecret (logAccess st k SAction.read ctx true none) k
      (tval ctx.worldId) = .ok (some (.str v)) := by
    simp only [EnhancedSecretManager.getWorldSecret]
    rw [hcache1]
    rcases hgood with ⟨he, hval, hv⟩ | ⟨he, fv, hval, htr, hdec⟩
    · simp [he, hval, valOrNull, vtruthyO, vtruthy, hv]
    · have hdec1 : decrypt (logAccess st k SAction.read ctx true none) fv
          = .ok v :=
        (decrypt_congr st (logAccess st k SAction.read ctx true none) rfl fv).trans hdec
      simp [he, hval, htr, hdec1, vtruthyO]
  simp only [EnhancedSecretManager.get, hl]
  rw [if_pos hperm, if_pos hw, hwsv]

theorem get_user_comp (st : SMState) (ctx : SecretContext) (k v : String)
    (hl : ctx.level = Level.user) (hu : truthyO ctx.userId = true)
    (hreq : ctx.requesterId = ctx.userId) (z : Component)
    (hfind : (st.components.filter (fun c => c.entityId = tval ctx.userId)).find?
        (isSecretComponent k) = some z)
    (hgood : ((z.data.metadata.map (fun m => m.encrypted.getD false)).getD false = false
          ∧ z.data.encryptedLegacy.getD false = false
          ∧ z.data.value = some (.str v) ∧ v ≠ "")
      ∨ ((z.data.metadata.map (fun m => m.encrypted.getD false)).getD false = true
          ∧ ∃ e : EncryptedSecret, z.data.value = some (.enc e) ∧ e.algorithm ≠ ""
          ∧ decrypt st (.enc e) = .ok v)) :
    (get st k ctx).1 = some (.str v) := by
  have hperm : checkPermission (logAccess st k .read ctx true none) k
      SAction.read ctx = true := by
    rw [checkPermission_logAccess]
    simp [EnhancedSecretManager.checkPermission, hl, hu, hreq]
  have hfind1 : ((logAccess st k SAction.read ctx true none).components.filter
      (fun c => c.entityId = tval ctx.userId)).find? (isSecretComponent k)
      = some z := by
    rw [logAccess_components]
    exact hfind
  have husv : getUserSecret (logAccess st k SAction.read ctx true none) k
      (tval ctx.userId) = .ok (some (.str v)) := by
    simp only [EnhancedSecretManager.getUserSecret]
    rw [hfind1]
    rcases hgood with ⟨he, hleg, hval, hv⟩ | ⟨he, e, hval, halg, hdec⟩
    · simp [he, hleg, hval, valOrNull, vtruthyO, vtruthy, hv]
    · have hdec1 : decrypt (logAccess st k SAction.read ctx true none) (.enc e)
          = .ok v :=
        (decrypt_congr st (logAccess st k SAction.read ctx true none) rfl
          (.enc e)).trans hdec
      simp [he, hval, halg, hdec1, vtruthyO, vtruthy]
  simp only [EnhancedSecretManager.get, hl]
  rw [if_pos hperm, if_pos hu, husv]

theorem findSecret_cons (a : Component) (t : List Component) (uid k : String) :
    findSecret (a :: t) uid k
      = if a.entityId = uid ∧ isSecretComponent k a = true then some a
        else findSecret t uid k := by
  by_cases ha : a.entityId = uid
  · by_cases hpa : isSecretComponent k a = true
    · simp [findSecret, List.filter_cons, List.find?_cons, ha, hpa]
    · simp [findSecret, List.filter_cons, List.find?_cons, ha, hpa]
  · simp [findSecret, List.filter_cons, ha]

theorem find_secret_append (l : List Component) (uid k : String)
    (newC : Component) (hfind : findSecret l uid k = none)
    (he : newC.entityId = uid) (hp : isSecretComponent k newC = true) :
    findSecret (l ++ [newC]) uid k = some newC := by
  induction l with
  | nil =>
    rw [List.nil_append, findSecret_cons, if_pos ⟨he, hp⟩]
  | cons a t ih =>
    rw [findSecret_cons] at hfind
    rw [List.cons_append, findSecret_cons]
    by_cases hcond : a.entityId = uid ∧ isSecretComponent k a = true
    · rw [if_pos hcond] at hfind
      exact absurd hfind (by simp)
    · rw [if_neg hcond] at hfind
      rw [if_neg hcond]
      exact ih hfind

theorem find_secret_update (l : List Component) (uid k : String)
    (c : Component) (cd : ComponentData)
    (hfind : findSecret l uid k = some c) (hk : cd.key = k) :
    ∃ z, findSecret (l.map
        (fun x => if x.id = c.id then { x with data := cd } else x)) uid k
      = some z ∧ z.data = cd := by
  induction l with
  | nil => exact absurd hfind (by simp [findSecret])
  | cons a t ih =>
    rw [findSecret_cons] at hfind
    rw [List.map_cons]
    by_cases hid : a.id = c.id
    · rw [if_pos hid, findSecret_cons]
      by_cases hcond : a.entityId = uid ∧ isSecretComponent k a = true
      · have hcond' : ({ a with data := cd } : Component).entityId = uid
            ∧ isSecretComponent k { a with data := cd } = true := by
          refine ⟨hcond.1, ?_⟩
          have h2 := hcond.2
          simp only [isSecretComponent, Bool.and_eq_true] at h2 ⊢
          exact ⟨by simp [hk], h2.2⟩
        rw [if_pos hcond']
        exact ⟨_, rfl, rfl⟩
      · rw [if_neg hcond] at hfind
        by_cases hcond' : ({ a with data := cd } : Component).entityId = uid
            ∧ isSecretComponent k { a with data := cd } = true
        · rw [if_pos hcond']
          exact ⟨_, rfl, rfl⟩
        · rw [if_neg hcond']
          exact ih hfind
    · rw [if_neg hid, findSecret_cons]
      by_cases hcond : a.entityId = uid ∧ isSecretComponent k a = true
      · rw [if_pos hcond] at hfind
        have hca : c = a := (Option.some.inj hfind).symm
        subst hca
        exact absurd rfl hid
      · rw [if_neg hcond] at hfind
        rw [if_neg hcond]
        exact ih hfind

theorem setWorldSecret_post (st : SMState) (k s wid : String)
    (c : SecretConfig) (b : Bool) (st' : SMState)
    (h : setWorldSecret st k (.str s) wid c = .ok (b, st')) :
    b = true
    ∧ st'.encryptionKey = st.encryptionKey
    ∧ st'.agentId = st.agentId
    ∧ (alookup st'.worlds wid).isSome = true
    ∧ ∃ fv, (alookup st'.secretCache ("world:" ++ wid)).bind
          (fun m => alookup m k) = some { c with value := some fv }
      ∧ ((c.encrypted.getD false = false ∧ fv = .str s)
         ∨ (c.encrypted.getD false = true ∧ vtruthy fv = true
            ∧ decrypt st' fv = .ok s)) := by
  simp only [EnhancedSecretManager.setWorldSecret] at h
  cases hwo : alookup st.worlds wid with
  | none =>
    rw [hwo] at h
    exact absurd h (by simp)
  | some w =>
    simp only [hwo] at h
    by_cases henc : c.encrypted.getD false = true
    · rw [if_pos henc] at h
      simp only [Except.ok.injEq, Prod.mk.injEq] at h
      obtain ⟨hb, hst⟩ := h
      subst hst
      refine ⟨hb.symm, rfl, rfl, ?_,
        ⟨.enc (encrypt st s).1, ?_, Or.inr ⟨henc, rfl, ?_⟩⟩⟩
      · exact alookup_ainsert_isSome _ _ _ _ (by rw [encrypt_worlds, hwo]; rfl)
      · simp [alookup_ainsert_self]
      · exact decrypt_encrypt st _ s rfl
    · rw [if_neg henc] at h
      simp only [Except.ok.injEq, Prod.mk.injEq] at h
      obtain ⟨hb, hst⟩ := h
      subst hst
      refine ⟨hb.symm, rfl, rfl, ?_,
        ⟨.str s, ?_, Or.inl ⟨by simpa using henc, rfl⟩⟩⟩
      · exact alookup_ainsert_isSome _ _ _ _ (by rw [hwo]; rfl)
      · simp [alookup_ainsert_self]

theorem setUserSecret_post (st : SMState) (k s uid : String)
    (c : SecretConfig) (b : Bool) (st' : SMState)
    (h : setUserSecret st k (.str s) uid c = .ok (b, st')) :
    b = true
    ∧ st'.encryptionKey = st.encryptionKey
    ∧ st'.agentId = st.agentId
    ∧ ∃ z, findSecret st'.components uid k = some z
      ∧ z.data.metadata = some c
      ∧ z.data.encryptedLegacy = none
      ∧ ∃ fv, z.data.value = some fv
        ∧ ((c.encrypted.getD false = false ∧ fv = .str s)
           ∨ (c.encrypted.getD false = true ∧ ∃ e : EncryptedSecret,
              fv = .enc e ∧ e.algorithm ≠ "" ∧ decrypt st' fv = .ok s)) := by
  simp only [EnhancedSecretManager.setUserSecret] at h
  by_cases henc : c.encrypted.getD false = true
  · rw [if_pos henc] at h
    cases hex : (st.components.filter (fun c0 => c0.entityId = uid)).find?
        (isSecretComponent k) with
    | some c0 =>
      simp only [hex] at h
      simp only [Except.ok.injEq, Prod.mk.injEq] at h
      obtain ⟨hb, hst⟩ := h
      subst hst
      obtain ⟨z, hz, hzd⟩ := find_secret_update st.components uid k c0
        { key := k, value := some (.enc (encrypt st s).1), metadata := some c,
          encryptedLegacy := none, updatedAt := (encrypt st s).2.now }
        hex rfl
      refine ⟨hb.symm, rfl, rfl, z, hz, ?_, ?_,
        ⟨.enc (encrypt st s).1, ?_,
          Or.inr ⟨henc, (encrypt st s).1, rfl, by simp [encrypt], ?_⟩⟩⟩
      · rw [hzd]
      · rw [hzd]
      · rw [hzd]
      · exact decrypt_encrypt st _ s rfl
    | none =>
      simp only [hex] at h
      simp only [Except.ok.injEq, Prod.mk.injEq] at h
      obtain ⟨hb, hst⟩ := h
      subst hst
      refine ⟨hb.symm, rfl, rfl,
        ⟨_, find_secret_append st.components uid k _ hex rfl (by simp [EnhancedSecretManager.isSecretComponent]), rfl, rfl,
          ⟨.enc (encrypt st s).1, rfl,
            Or.inr ⟨henc, (encrypt st s).1, rfl, by simp [encrypt], ?_⟩⟩⟩⟩
      exact decrypt_encrypt st _ s rfl
  · rw [if_neg henc] at h
    cases hex : (st.components.filter (fun c0 => c0.entityId = uid)).find?
        (isSecretComponent k) with
    | some c0 =>
      simp only [hex] at h
      simp only [Except.ok.injEq, Prod.mk.injEq] at h
      obtain ⟨hb, hst⟩ := h
      subst hst
      obtain ⟨z, hz, hzd⟩ := find_secret_update st.components uid k c0
        { key := k, value := some (.str s), metadata := some c,
          encryptedLegacy := none, updatedAt := st.now }
        hex rfl
      refine ⟨hb.symm, rfl, rfl, z, hz, ?_, ?_,
        ⟨.str s, ?_, Or.inl ⟨by simpa using henc, rfl⟩⟩⟩
      · rw [hzd]
      · rw [hzd]
      · rw [hzd]
    | none =>
      simp only [hex] at h
      simp only [Except.ok.injEq, Prod.mk.injEq] at h
      obtain ⟨hb, hst⟩ := h
      subst hst
      exact ⟨hb.symm, rfl, rfl,
        ⟨_, find_secret_append st.components uid k _ hex rfl (by simp [EnhancedSecretManager.isSecretComponent]), rfl, rfl,
          ⟨.str s, rfl, Or.inl ⟨by simpa using henc, rfl⟩⟩⟩⟩

theorem c1_world (st : SMState) (ctx : SecretContext) (k v : String)
    (cfg : Option PartialSecretConfig) (hv : v ≠ "")
    (hl : ctx.level = Level.world)
    (hset : (set st k (.str v) ctx cfg).1 = true) :
    (get (set st k (.str v) ctx cfg).2 k ctx).1 = some (.str v) := by
  simp only [EnhancedSecretManager.set, hl] at hset ⊢
  by_cases hperm : checkPermission (logAccess st k .write ctx true none) k
      SAction.write ctx = true
  · rw [if_pos hperm] at hset ⊢
    by_cases hval : ((truthyO (cfg.bind fun c => c.validationMethod)
          || truthyO (cfg.bind fun c => c.type))
        && !(logAccess st k .write ctx true none).validator k (.str v)
          (orTruthy (cfg.bind fun c => c.type) "secret")
          (cfg.bind fun c => c.validationMethod)) = true
    · rw [if_pos hval] at hset
      simp at hset
    · rw [if_neg (by simpa using hval)] at hset ⊢
      by_cases hw : truthyO ctx.worldId = true
      · rw [if_pos hw] at hset ⊢
        cases hws : setWorldSecret (logAccess st k SAction.write ctx true none)
            k (.str v) (tval ctx.worldId)
            (fullConfig (logAccess st k SAction.write ctx true none) k (.str v)
              ctx cfg) with
        | error e =>
          rw [hws] at hset
          exact Bool.noConfusion hset
        | ok r =>
          obtain ⟨b0, st2⟩ := r
          obtain ⟨-, -, -, hwx, fv, hcache, hgood⟩ :=
            setWorldSecret_post _ k v (tval ctx.worldId) _ b0 st2 hws
          show (get st2 k ctx).1 = some (Value.str v)
          apply get_world_cache st2 ctx k v hl hw hwx _ hcache
          rcases hgood with ⟨he, hfv⟩ | ⟨he, htr, hdec⟩
          · exact Or.inl ⟨he, by rw [hfv], hv⟩
          · exact Or.inr ⟨he, fv, rfl, htr, hdec⟩
      · rw [if_neg hw] at hset
        simp at hset
  · rw [if_neg (by simpa using hperm)] at hset
    simp at hset

theorem c1_user (st : SMState) (ctx : SecretContext) (k v : String)
    (cfg : Option PartialSecretConfig) (hv : v ≠ "")
    (hl : ctx.level = Level.user)
    (hset : (set st k (.str v) ctx cfg).1 = true) :
    (get (set st k (.str v) ctx cfg).2 k ctx).1 = some (.str v) := by
  simp only [EnhancedSecretManager.set, hl] at hset ⊢
  by_cases hperm : checkPermission (logAccess st k .write ctx true none) k
      SAction.write ctx = true
  · rw [if_pos hperm] at hset ⊢
    by_cases hval : ((truthyO (cfg.bind fun c => c.validationMethod)
          || truthyO (cfg.bind fun c => c.type))
        && !(logAccess st k .write ctx true none).validator k (.str v)
          (orTruthy (cfg.bind fun c => c.type) "secret")
          (cfg.bind fun c => c.validationMethod)) = true
    · rw [if_pos hval] at hset
      simp at hset
    · rw [if_neg (by simpa using hval)] at hset ⊢
      by_cases hu : truthyO ctx.userId = true
      · rw [if_pos hu] at hset ⊢
        have hreq : ctx.requesterId = ctx.userId := by
          have h' := hperm
          rw [checkPermission_logAccess] at h'
          simp [EnhancedSecretManager.checkPermission, hl, hu] at h'
          exact h'
        cases hus : setUserSecret (logAccess st k SAction.write ctx true none)
            k (.str v) (tval ctx.userId)
            (fullConfig (logAccess st k SAction.write ctx true none) k (.str v)
              ctx cfg) with
        | error e =>
          rw [hus] at hset
          exact Bool.noConfusion hset
        | ok r =>
          obtain ⟨b0, st2⟩ := r
          obtain ⟨-, -, -, z, hz, hmeta, hleg, fv, hfv, hgood⟩ :=
            setUserSecret_post _ k v (tval ctx.userId) _ b0 st2 hus
          show (get st2 k ctx).1 = some (Value.str v)
          apply get_user_comp st2 ctx k v hl hu hreq z hz
          rcases hgood with ⟨he, hfve⟩ | ⟨he, e, hfve, halg, hdec⟩
          · refine Or.inl ⟨?_, ?_, ?_, hv⟩
            · rw [hmeta]
              simpa using he
            · rw [hleg]
              rfl
            · rw [hfv, hfve]
          · refine Or.inr ⟨?_, e, ?_, halg, ?_⟩
            · rw [hmeta]
              simpa using he
            · rw [hfv, hfve]
            · rw [← hfve]
              exact hdec
      · rw [if_neg hu] at hset
        simp at hset
  · rw [if_neg (by simpa using hperm)] at hset
    simp at hset

/-- C1 amended claim: for every level and every NON-EMPTY string value
`v` (and, at global level, every key not beginning with `ENV_`), a
`set(k, v, ctx)` that returns true followed by `get(k, ctx)` with the
same context returns exactly `v`, whether the record is stored encrypted
or as plaintext, over every starting state. -/
theorem c1_roundtrip (st : SMState) (ctx : SecretContext) (k v : String)
    (cfg : Option PartialSecretConfig) (hv : v ≠ "")
    (hk : ctx.level = Level.global → ¬ k.data.take 4 = "ENV_".data)
    (hset : (set st k (.str v) ctx cfg).1 = true) :
    (get (set st k (.str v) ctx cfg).2 k ctx).1 = some (.str v) := by
  cases hl : ctx.level with
  | global => exact c1_global st ctx k v cfg hv hl (hk hl) hset
  | world => exact c1_world st ctx k v cfg hv hl hset
  | user => exact c1_user st ctx k v cfg hv hl hset

/-- Witness for C1 at concrete inputs: `alice` stores and reads back
`"hi"` at user level (stored encrypted by default), `boss` stores and
reads back `"wv"` at world level as plaintext, and the agent stores and
reads back `"gv"` at global level. -/
theorem c1_roundtrip_witness :
    ((set stFix "K" (.str "hi") ctxAlice none).1 = true
      ∧ (get (set stFix "K" (.str "hi") ctxAlice none).2 "K" ctxAlice).1
          = some (.str "hi"))
    ∧ ((set stBossFix "WK" (.str "wv") ctxWorldBoss
          (some { encrypted := some false })).1 = true
      ∧ (get (set stBossFix "WK" (.str "wv") ctxWorldBoss
          (some { encrypted := some false })).2 "WK" ctxWorldBoss).1
          = some (.str "wv"))
    ∧ ((set stFix "G" (.str "gv") ctxAgentGlobal none).1 = true
      ∧ (get (set stFix "G" (.str "gv") ctxAgentGlobal none).2 "G"
          ctxAgentGlobal).1 = some (.str "gv")) := by
  refine ⟨⟨by decide, ?_⟩, ⟨by decide, ?_⟩, ⟨by decide, ?_⟩⟩
  · exact c1_roundtrip stFix ctxAlice "K" "hi" none (by decide) (by decide)
      (by decide)
  · exact c1_roundtrip stBossFix ctxWorldBoss "WK" "wv"
      (some { encrypted := some false }) (by decide) (by decide) (by decide)
  · exact c1_roundtrip stFix ctxAgentGlobal "G" "gv" none (by decide)
      (by decide) (by decide)

/-- C1 counterexample to the claim as stated: the empty string does not
round-trip. `alice` stores `""` as plaintext at user level; `set` returns
true but `get` returns null (`config.value || null` treats `""` as
falsy). -/
theorem c1_counterexample :
    (set stFix "K" (.str "") ctxAlice (some { encrypted := some false })).1
        = true
    ∧ (get (set stFix "K" (.str "") ctxAlice
        (some { encrypted := some false })).2 "K" ctxAlice).1 = none := by
  exact ⟨rfl, rfl⟩

end SecretsManager
